import Mathlib

/-!
Verification development for the virtual-host configuration engine
(`src/server/parser.ts`, `src/server/manager.ts`).

Text is modelled as `List Char`.  JavaScript regular expressions used by the
source are translated into explicit scanning functions with the same
leftmost-match / lazy-quantifier semantics; the translation of each regex is
documented at the corresponding definition.  External processes (the
`apachectl configtest` syntax check, `systemctl reload`, privileged `cp`) are
modelled by environment records carrying their observable outcome.
-/

/-! ### Character classes (ASCII fragment of the JS classes used by the source) -/

/-- JS `\s` (ASCII range) and the whitespace trimmed by `String.trim`. -/
def wsChar (c : Char) : Bool :=
  c == ' ' || c == '\t' || c == '\n' || c == '\r' || c == '\x0b' || c == '\x0c'

/-- `[A-Za-z]`. -/
def alphaChar (c : Char) : Bool :=
  decide (('a' ≤ c ∧ c ≤ 'z') ∨ ('A' ≤ c ∧ c ≤ 'Z'))

/-- `[0-9]`. -/
def digitChar (c : Char) : Bool :=
  decide ('0' ≤ c ∧ c ≤ '9')

/-- `[A-Za-z0-9_-]`, the directive-name class of the tokenizer. -/
def nameChar (c : Char) : Bool :=
  alphaChar c || digitChar c || c == '_' || c == '-'

/-- JS `\w`, used for the `\b` word-boundary test. -/
def wordChar (c : Char) : Bool :=
  alphaChar c || digitChar c || c == '_'

/-! ### Basic string utilities -/

/-- `String.toLowerCase` restricted to the ASCII letters compared by the source. -/
def toLowerStr (l : List Char) : List Char := l.map Char.toLower

/-- `String.trim`: drop leading and trailing whitespace. -/
def trim (l : List Char) : List Char :=
  ((l.dropWhile wsChar).reverse.dropWhile wsChar).reverse

/-- Does the list end in the given character? -/
def endsWithChar (l : List Char) (c : Char) : Bool :=
  match l.getLast? with
  | some d => d == c
  | none => false

/-- Boolean list-prefix test (JS `String.startsWith` / anchored literal match). -/
def prefixB : List Char → List Char → Bool
  | [], _ => true
  | _ :: _, [] => false
  | a :: as, b :: bs => a == b && prefixB as bs

/-- JS `String.includes`: some suffix has `nd` as a prefix. -/
def containsSub (nd : List Char) : List Char → Bool
  | [] => prefixB nd []
  | c :: cs => prefixB nd (c :: cs) || containsSub nd cs

/-- JS `String.endsWith` for a string suffix. -/
def endsWithStr (suffix l : List Char) : Bool :=
  prefixB suffix.reverse l.reverse

/-- JS `String.split(sep)` for a single-character separator (empty parts kept). -/
def splitOnChar (sep : Char) : List Char → List (List Char)
  | [] => [[]]
  | c :: cs =>
    if c = sep then [] :: splitOnChar sep cs
    else
      match splitOnChar sep cs with
      | [] => [[c]]
      | p :: ps => (c :: p) :: ps

/-- JS `str.split(/\s+/).filter(a => a.length > 0)`: whitespace-separated words. -/
def wordsAux : List Char → List Char → List (List Char)
  | [], cur => if cur = [] then [] else [cur.reverse]
  | c :: cs, cur =>
    if wsChar c then
      if cur = [] then wordsAux cs [] else cur.reverse :: wordsAux cs []
    else wordsAux cs (c :: cur)

def wordsOf (l : List Char) : List (List Char) := wordsAux l []

/-- `parseInt(digits, 10)` for a list of decimal digits. -/
def digitsToNat (l : List Char) : Nat :=
  l.foldl (fun a c => a * 10 + (c.toNat - '0'.toNat)) 0

/-- Case-insensitive literal match that also returns the actual consumed
characters (needed to rebuild `match[0]` texts): consumes `pat` from the
front of the input, comparing lowercased characters. -/
def ciPrefixConsume : List Char → List Char → Option (List Char × List Char)
  | [], s => some ([], s)
  | _ :: _, [] => none
  | p :: ps, c :: cs =>
    if Char.toLower c == Char.toLower p then
      (ciPrefixConsume ps cs).map (fun r => (c :: r.1, r.2))
    else none

/-! ### Leftmost-match scanning

`firstSplit m s` applies the anchored matcher `m` at every position of `s`
from the left and returns the first success together with the text before the
match and the text after the consumed part.  This is exactly how a JS regex
with a `g` flag locates its next match: the engine attempts the whole pattern
at each successive index. -/

def firstSplit {α : Type} (m : List Char → Option (α × List Char)) :
    List Char → Option (List Char × α × List Char)
  | [] => (m []).map (fun r => ([], r.1, r.2))
  | c :: cs =>
    match m (c :: cs) with
    | some (a, r) => some ([], a, r)
    | none => (firstSplit m cs).map (fun q => (c :: q.1, q.2.1, q.2.2))

/-! ### String constants used by the engine -/

def sVirtualHost : List Char := "VirtualHost".data
def sOpenTagLit : List Char := "<VirtualHost".data
def sCloseTagLit : List Char := "</VirtualHost>".data
def sServerName : List Char := "ServerName".data
def sServerNameKey : List Char := "servername".data
def sServerAliasKey : List Char := "serveralias".data
def sProxyPassKey : List Char := "proxypass".data
def sProxyPassMatchKey : List Char := "proxypassmatch".data
def sPhpPrefix : List Char := "php_".data
def sAddHandlerKey : List Char := "addhandler".data
def sSetHandlerKey : List Char := "sethandler".data
def sPhp : List Char := "php".data
def sDocumentRootKey : List Char := "documentroot".data
def sErrorLogKey : List Char := "errorlog".data
def sCustomLogKey : List Char := "customlog".data
def sSslEngineKey : List Char := "sslengine".data
def sSslCertFileKey : List Char := "sslcertificatefile".data
def sSslCertKeyFileKey : List Char := "sslcertificatekeyfile".data
def sOn : List Char := "on".data
def sHttp : List Char := "http".data
def sWs : List Char := "ws".data
def sSchemeSep : List Char := "://".data
def sLoopbackIp : List Char := "127.0.0.1".data
def sLocalhost : List Char := "localhost".data
def sExpiryDate : List Char := "expiry_date".data
def sDotConf : List Char := ".conf".data
def okMarker : List Char := "Syntax OK".data

/-! ### Directive map

`Map<string, string[]>` with insertion order, as used by `parseDirectives`:
an association list from the lower-cased directive name to the ordered list
of its values. -/

abbrev DirMap := List (List Char × List (List Char))

def containsKey (m : DirMap) (k : List Char) : Bool :=
  m.any (fun e => e.1 == k)

def dmLookup (m : DirMap) (k : List Char) : Option (List (List Char)) :=
  (m.find? (fun e => e.1 == k)).map (·.2)

/-- `addDirective` from parser.ts: lower-case the name; append the value to
the existing entry (JS `map.get(key)!.push(value)`) or add a new entry at the
end. -/
def addDirective (m : DirMap) (name v : List Char) : DirMap :=
  let key := toLowerStr name
  if containsKey m key then
    m.map (fun e => if e.1 = key then (e.1, e.2 ++ [v]) else e)
  else
    m ++ [(key, [v])]

/-- `getFirstDirective` from parser.ts. -/
def getFirstDirective (m : DirMap) (name : List Char) : Option (List Char) :=
  match dmLookup m (toLowerStr name) with
  | some (v :: _) => some v
  | _ => none

/-! ### The line scanner of `parseDirectives`

One line of the loop body in parser.ts: strip the comment (`indexOf('#')` /
`substring`), `trim`, then either commit/extend the pending directive or start
a new one.  The directive-start regex is
`^([A-Za-z][A-Za-z0-9_-]*)(?:\s+(.*))?$` and the extra guard rejects lines
matching `^[%$@\[]`. -/

/-- The directive-start regex: the whole line is a name from the class
`[A-Za-z][A-Za-z0-9_-]*`, optionally followed by whitespace and the value
(the value is the text after the maximal whitespace run, since `\s+` is
greedy and `.*` accepts the rest). -/
def directiveMatch? (l : List Char) : Option (List Char × List Char) :=
  match l with
  | [] => none
  | c :: cs =>
    if alphaChar c then
      let name := c :: cs.takeWhile nameChar
      match cs.dropWhile nameChar with
      | [] => some (name, [])
      | d :: ds => if wsChar d then some (name, (d :: ds).dropWhile wsChar) else none
    else none

/-- The guard `line.match(/^[%$@\[]/)`. -/
def startsSpecial (l : List Char) : Bool :=
  match l with
  | c :: _ => c == '%' || c == '$' || c == '@' || c == '['
  | [] => false

/-- Scanner state: the pending directive name and accumulated value
(`currentDirective` / `currentValue`). -/
structure ScanSt where
  cur : Option (List Char)
  val : List Char
deriving DecidableEq

def scanStep (acc : DirMap × ScanSt) (rawLine : List Char) : DirMap × ScanSt :=
  let m := acc.1
  let st := acc.2
  let line := trim (rawLine.takeWhile (fun c => c != '#'))
  if line = [] then
    match st.cur with
    | some name =>
      if st.val ≠ [] then (addDirective m name (trim st.val), ⟨none, []⟩) else (m, st)
    | none => (m, st)
  else
    match directiveMatch? line, startsSpecial line with
    | some (name, value), false =>
      let m1 :=
        match st.cur with
        | some pn => if st.val ≠ [] then addDirective m pn (trim st.val) else m
        | none => m
      if value.isEmpty || !(endsWithChar value '\\') then
        (addDirective m1 name (trim value), ⟨none, []⟩)
      else
        (m1, ⟨some name, trim value.dropLast ++ [' ']⟩)
    | _, _ =>
      match st.cur with
      | some name =>
        if endsWithChar line '\\' then
          (m, ⟨some name, st.val ++ trim line.dropLast ++ [' ']⟩)
        else
          (addDirective m name (trim (st.val ++ line)), ⟨none, []⟩)
      | none => (m, st)

/-- The full line loop of `parseDirectives` plus the final commit of a
pending directive. -/
def scanLines (lines : List (List Char)) : DirMap :=
  let r := lines.foldl scanStep ([], ⟨none, []⟩)
  match r.2.cur with
  | some name => if r.2.val ≠ [] then addDirective r.1 name (trim r.2.val) else r.1
  | none => r.1

/-! ### Anchored matchers for the block regexes

Each matcher attempts the pattern at the start of its input and returns the
consumed text (to rebuild `match[0]`) together with the remaining text. -/

/-- Consume one expected character. -/
def expectChar (c : Char) : List Char → Option (List Char)
  | d :: ds => if d = c then some ds else none
  | [] => none

theorem expectChar_rest_lt {c : Char} {s r : List Char}
    (h : expectChar c s = some r) : r.length < s.length := by
  cases s with
  | nil => simp [expectChar] at h
  | cons d ds =>
    simp only [expectChar] at h
    split at h
    · cases h; simp
    · cases h

theorem ciPrefixConsume_rest_le :
    ∀ (p s tk r : List Char), ciPrefixConsume p s = some (tk, r) →
      r.length ≤ s.length := by
  intro p
  induction p with
  | nil =>
    intro s tk r h
    simp [ciPrefixConsume] at h
    obtain ⟨-, rfl⟩ := h
    exact Nat.le_refl _
  | cons a as ih =>
    intro s tk r h
    cases s with
    | nil => simp [ciPrefixConsume] at h
    | cons c cs =>
      simp only [ciPrefixConsume] at h
      split at h
      · cases hq : ciPrefixConsume as cs with
        | none => rw [hq] at h; cases h
        | some q =>
          rw [hq] at h
          cases h
          have := ih cs q.1 q.2 (by rw [hq])
          simp
          omega
      · cases h

theorem length_dropWhile_le' (p : Char → Bool) (l : List Char) :
    (l.dropWhile p).length ≤ l.length := by
  induction l with
  | nil => simp [List.dropWhile]
  | cons c cs ih =>
    simp only [List.dropWhile]
    split
    · exact Nat.le_trans ih (by simp)
    · simp

/-- Opening tag of the extraction regex
`/<\s*VirtualHost\b([^>]*)>([\s\S]*?)<\/\s*VirtualHost\s*>/gi` (parser.ts,
`extractVirtualHostBlocks`): `<`, optional whitespace, case-insensitive
`VirtualHost`, a word boundary, the attribute capture `[^>]*`, then `>`.
Returns `((consumedOpenTag, attrs), rest)`. -/
def matchVhostOpen (s : List Char) : Option ((List Char × List Char) × List Char) :=
  match expectChar '<' s with
  | none => none
  | some t =>
    match ciPrefixConsume sVirtualHost (t.dropWhile wsChar) with
    | none => none
    | some (nameTk, t2) =>
      if t2.head?.elim false wordChar then none
      else
        match expectChar '>' (t2.dropWhile (fun c => c != '>')) with
        | none => none
        | some rest =>
          some (('<' :: (t.takeWhile wsChar ++ nameTk ++
                  t2.takeWhile (fun c => c != '>') ++ ['>']),
                 t2.takeWhile (fun c => c != '>')), rest)

theorem matchVhostOpen_rest_lt {s : List Char} {a : List Char × List Char}
    {r : List Char} (h : matchVhostOpen s = some (a, r)) : r.length < s.length := by
  unfold matchVhostOpen at h
  cases h1 : expectChar '<' s with
  | none => rw [h1] at h; cases h
  | some t =>
    rw [h1] at h
    dsimp only at h
    cases h2 : ciPrefixConsume sVirtualHost (t.dropWhile wsChar) with
    | none => rw [h2] at h; cases h
    | some p =>
      rw [h2] at h
      dsimp only at h
      split at h
      · cases h
      · cases h3 : expectChar '>' (p.2.dropWhile (fun c => c != '>')) with
        | none => rw [h3] at h; cases h
        | some rest =>
          rw [h3] at h
          cases h
          have e1 := expectChar_rest_lt h1
          have e2 := ciPrefixConsume_rest_le _ _ _ _ h2
          have e3 := expectChar_rest_lt h3
          have e4 := length_dropWhile_le' (fun c => c != '>') p.2
          have e5 := length_dropWhile_le' wsChar t
          omega

/-- Closing tag of the extraction regex: `<\/\s*VirtualHost\s*>`
(case-insensitive).  Returns `(consumedCloseTag, rest)`. -/
def matchVhostClose (s : List Char) : Option (List Char × List Char) :=
  match expectChar '<' s with
  | none => none
  | some t0 =>
  match expectChar '/' t0 with
  | none => none
  | some t =>
    match ciPrefixConsume sVirtualHost (t.dropWhile wsChar) with
    | none => none
    | some (nameTk, t2) =>
      match expectChar '>' (t2.dropWhile wsChar) with
      | none => none
      | some rest =>
        some ('<' :: '/' :: (t.takeWhile wsChar ++ nameTk ++
                t2.takeWhile wsChar ++ ['>']), rest)

theorem matchVhostClose_rest_lt {s : List Char} {a : List Char}
    {r : List Char} (h : matchVhostClose s = some (a, r)) : r.length < s.length := by
  unfold matchVhostClose at h
  cases h0 : expectChar '<' s with
  | none => rw [h0] at h; cases h
  | some t0 =>
    rw [h0] at h; dsimp only at h
    cases h1 : expectChar '/' t0 with
    | none => rw [h1] at h; cases h
    | some t =>
      rw [h1] at h; dsimp only at h
      cases h2 : ciPrefixConsume sVirtualHost (t.dropWhile wsChar) with
      | none => rw [h2] at h; cases h
      | some p =>
        rw [h2] at h; dsimp only at h
        cases h3 : expectChar '>' (p.2.dropWhile wsChar) with
        | none => rw [h3] at h; cases h
        | some rest =>
          rw [h3] at h
          cases h
          have e0 := expectChar_rest_lt h0
          have e1 := expectChar_rest_lt h1
          have e2 := ciPrefixConsume_rest_le _ _ _ _ h2
          have e3 := expectChar_rest_lt h3
          have e4 := length_dropWhile_le' wsChar p.2
          have e5 := length_dropWhile_le' wsChar t
          omega

/-- `firstSplit` with a match-shrinking matcher shrinks the remainder. -/
theorem firstSplit_rest_lt {α : Type} (m : List Char → Option (α × List Char))
    (hm : ∀ s a r, m s = some (a, r) → r.length < s.length) :
    ∀ s pre a r, firstSplit m s = some (pre, a, r) → r.length < s.length := by
  intro s
  induction s with
  | nil =>
    intro pre a r h
    simp only [firstSplit] at h
    cases hh : m [] with
    | none => rw [hh] at h; cases h
    | some q =>
      rw [hh] at h
      cases h
      exact hm [] q.1 q.2 (by rw [hh])
  | cons c cs ih =>
    intro pre a r h
    simp only [firstSplit] at h
    cases hh : m (c :: cs) with
    | some q =>
      rw [hh] at h
      cases h
      exact hm _ q.1 q.2 (by rw [hh])
    | none =>
      rw [hh] at h
      dsimp only [Option.map] at h
      cases hq : firstSplit m cs with
      | none => rw [hq] at h; cases h
      | some q =>
        rw [hq] at h
        cases h
        have := ih q.1 q.2.1 q.2.2 (by rw [hq])
        simp only [List.length_cons]
        omega

/-- The match found by `firstSplit` decomposes the input: the text before the
match followed by a suffix on which the matcher itself succeeds. -/
theorem firstSplit_decomp {α : Type} (m : List Char → Option (α × List Char)) :
    ∀ s pre a r, firstSplit m s = some (pre, a, r) →
      ∃ mid, s = pre ++ mid ∧ m mid = some (a, r) := by
  intro s
  induction s with
  | nil =>
    intro pre a r h
    simp only [firstSplit] at h
    cases hh : m [] with
    | none => rw [hh] at h; cases h
    | some q =>
      rw [hh] at h
      cases h
      exact ⟨[], rfl, by rw [hh]⟩
  | cons c cs ih =>
    intro pre a r h
    simp only [firstSplit] at h
    cases hh : m (c :: cs) with
    | some q =>
      rw [hh] at h
      cases h
      exact ⟨c :: cs, rfl, by rw [hh]⟩
    | none =>
      rw [hh] at h
      dsimp only [Option.map] at h
      cases hq : firstSplit m cs with
      | none => rw [hq] at h; cases h
      | some q =>
        rw [hq] at h
        cases h
        obtain ⟨mid, hmid, hm2⟩ := ih q.1 q.2.1 q.2.2 (by rw [hq])
        exact ⟨mid, by rw [hmid]; rfl, hm2⟩

/-! ### The block extractor (`extractVirtualHostBlocks` regex loop)

One whole-pattern attempt of
`/<\s*VirtualHost\b([^>]*)>([\s\S]*?)<\/\s*VirtualHost\s*>/gi`: the opening
tag at the current position, then — because `([\s\S]*?)` is lazy — the
earliest position at which the closing tag matches.  (If the lazy part's
earliest continuation has no closing tag anywhere after it, no later one
does either, so the whole attempt at this position fails, and the engine
moves to the next start index: exactly `firstSplit`.) -/

structure VSpan where
  attrs : List Char
  interior : List Char
  raw : List Char
deriving DecidableEq

def matchVhostSpan (s : List Char) : Option (VSpan × List Char) :=
  match matchVhostOpen s with
  | none => none
  | some ((openTk, attrs), afterOpen) =>
    match firstSplit matchVhostClose afterOpen with
    | none => none
    | some (interior, closeTk, rest) =>
      some (⟨attrs, interior, openTk ++ interior ++ closeTk⟩, rest)

theorem matchVhostSpan_rest_lt :
    ∀ (s : List Char) (a : VSpan) (r : List Char),
      matchVhostSpan s = some (a, r) → r.length < s.length := by
  intro s a r h
  unfold matchVhostSpan at h
  cases h1 : matchVhostOpen s with
  | none => rw [h1] at h; cases h
  | some q =>
    rw [h1] at h; dsimp only at h
    cases h2 : firstSplit matchVhostClose q.2 with
    | none => rw [h2] at h; cases h
    | some w =>
      rw [h2] at h
      cases h
      have e1 := matchVhostOpen_rest_lt h1
      have e2 := firstSplit_rest_lt matchVhostClose
        (fun _ _ _ hh => matchVhostClose_rest_lt hh) _ _ _ _ h2
      omega

/-- The successive matches of the extraction regex (`regex.exec` loop with
the `g` flag): each iteration continues after the previous match's end. -/
def extractVHostSpans (s : List Char) : List VSpan :=
  match h : firstSplit matchVhostSpan s with
  | none => []
  | some (_, sp, rest) => sp :: extractVHostSpans rest
  termination_by s.length
  decreasing_by
    exact firstSplit_rest_lt matchVhostSpan matchVhostSpan_rest_lt _ _ _ _ h

/-! ### The nested-block rescan of `parseDirectives`

Regex `/<([A-Za-z]+)\b[^>]*>([\s\S]*?)<\/\1\s*>/gi`.  The captured name is
the maximal letter run (any shorter split of `([A-Za-z]+)\b` puts the
boundary between two word characters, so backtracking the greedy `+` can
never succeed); the backreference `\1` is matched case-insensitively under
the `i` flag. -/

def matchCloseNamed (name : List Char) (s : List Char) : Option (List Char × List Char) :=
  match expectChar '<' s with
  | none => none
  | some t0 =>
  match expectChar '/' t0 with
  | none => none
  | some t =>
    match ciPrefixConsume name t with
    | none => none
    | some (nameTk, t2) =>
      match expectChar '>' (t2.dropWhile wsChar) with
      | none => none
      | some rest =>
        some ('<' :: '/' :: (nameTk ++ t2.takeWhile wsChar ++ ['>']), rest)

theorem matchCloseNamed_rest_lt {name s a r : List Char}
    (h : matchCloseNamed name s = some (a, r)) : r.length < s.length := by
  unfold matchCloseNamed at h
  cases h0 : expectChar '<' s with
  | none => rw [h0] at h; cases h
  | some t0 =>
    rw [h0] at h; dsimp only at h
    cases h1 : expectChar '/' t0 with
    | none => rw [h1] at h; cases h
    | some t =>
      rw [h1] at h; dsimp only at h
      cases h2 : ciPrefixConsume name t with
      | none => rw [h2] at h; cases h
      | some p =>
        rw [h2] at h; dsimp only at h
        cases h3 : expectChar '>' (p.2.dropWhile wsChar) with
        | none => rw [h3] at h; cases h
        | some rest =>
          rw [h3] at h
          cases h
          have e0 := expectChar_rest_lt h0
          have e1 := expectChar_rest_lt h1
          have e2 := ciPrefixConsume_rest_le _ _ _ _ h2
          have e3 := expectChar_rest_lt h3
          have e4 := length_dropWhile_le' wsChar p.2
          omega

/-- One whole-pattern attempt of the nested-block regex; returns the interior
capture `match[2]` and the text after the match. -/
def matchNestedSpan (s : List Char) : Option (List Char × List Char) :=
  match expectChar '<' s with
  | none => none
  | some t =>
    if (t.takeWhile alphaChar).isEmpty then none
    else
      if (t.dropWhile alphaChar).head?.elim false wordChar then none
      else
        match expectChar '>' ((t.dropWhile alphaChar).dropWhile (fun c => c != '>')) with
        | none => none
        | some afterGt =>
          match firstSplit (matchCloseNamed (t.takeWhile alphaChar)) afterGt with
          | none => none
          | some (interior, _, rest) => some (interior, rest)

theorem matchNestedSpan_rest_lt :
    ∀ (s interior r : List Char),
      matchNestedSpan s = some (interior, r) → r.length < s.length := by
  intro s interior r h
  unfold matchNestedSpan at h
  cases h0 : expectChar '<' s with
  | none => rw [h0] at h; cases h
  | some t =>
    rw [h0] at h; dsimp only at h
    split at h
    · cases h
    · split at h
      · cases h
      · cases h1 : expectChar '>' ((t.dropWhile alphaChar).dropWhile (fun c => c != '>')) with
        | none => rw [h1] at h; cases h
        | some afterGt =>
          rw [h1] at h; dsimp only at h
          cases h2 : firstSplit (matchCloseNamed (t.takeWhile alphaChar)) afterGt with
          | none => rw [h2] at h; cases h
          | some w =>
            rw [h2] at h
            cases h
            have e0 := expectChar_rest_lt h0
            have e1 := expectChar_rest_lt h1
            have e2 := firstSplit_rest_lt (matchCloseNamed (t.takeWhile alphaChar))
              (fun _ _ _ hh => matchCloseNamed_rest_lt hh) _ _ _ _ h2
            have e3 := length_dropWhile_le' (fun c => c != '>') (t.dropWhile alphaChar)
            have e4 := length_dropWhile_le' alphaChar t
            omega

theorem matchNestedSpan_interior_le :
    ∀ (s interior r : List Char),
      matchNestedSpan s = some (interior, r) → interior.length < s.length := by
  intro s interior r h
  unfold matchNestedSpan at h
  cases h0 : expectChar '<' s with
  | none => rw [h0] at h; cases h
  | some t =>
    rw [h0] at h; dsimp only at h
    split at h
    · cases h
    · split at h
      · cases h
      · cases h1 : expectChar '>' ((t.dropWhile alphaChar).dropWhile (fun c => c != '>')) with
        | none => rw [h1] at h; cases h
        | some afterGt =>
          rw [h1] at h; dsimp only at h
          cases h2 : firstSplit (matchCloseNamed (t.takeWhile alphaChar)) afterGt with
          | none => rw [h2] at h; cases h
          | some w =>
            rw [h2] at h
            cases h
            obtain ⟨mid, hmid, -⟩ := firstSplit_decomp _ _ _ _ _ h2
            have e0 := expectChar_rest_lt h0
            have e1 := expectChar_rest_lt h1
            have e3 := length_dropWhile_le' (fun c => c != '>') (t.dropWhile alphaChar)
            have e4 := length_dropWhile_le' alphaChar t
            have e5 : w.1.length ≤ afterGt.length := by
              rw [hmid]; simp
            omega

/-- The successive `match[2]` captures of the nested-block regex over the
whole block text. -/
def nestedInteriors (s : List Char) : List (List Char) :=
  match h : firstSplit matchNestedSpan s with
  | none => []
  | some (_, interior, rest) => interior :: nestedInteriors rest
  termination_by s.length
  decreasing_by
    exact firstSplit_rest_lt matchNestedSpan
      (fun s a r hh => matchNestedSpan_rest_lt s a r hh) _ _ _ _ h

theorem nestedInteriors_mem_lt_aux :
    ∀ (n : Nat) (s t : List Char), s.length < n → t ∈ nestedInteriors s →
      t.length < s.length := by
  intro n
  induction n with
  | zero => intro s t hlen _; exact absurd hlen (by omega)
  | succ k ih =>
    intro s t hlen ht
    rw [nestedInteriors] at ht
    split at ht
    · simp at ht
    · next pre interior rest h =>
      have hrest := firstSplit_rest_lt matchNestedSpan
        (fun s a r hh => matchNestedSpan_rest_lt s a r hh) _ _ _ _ h
      rcases List.mem_cons.mp ht with h1 | h2
      · subst h1
        obtain ⟨mid, hmid, hm⟩ := firstSplit_decomp _ _ _ _ _ h
        have hi := matchNestedSpan_interior_le _ _ _ hm
        have : mid.length ≤ s.length := by rw [hmid]; simp
        omega
      · have := ih rest t (by omega) h2
        omega

theorem nestedInteriors_mem_lt (s t : List Char) (ht : t ∈ nestedInteriors s) :
    t.length < s.length :=
  nestedInteriors_mem_lt_aux (s.length + 1) s t (by omega) ht

/-- Merge the directives of a nested block into the outer map
(`for (const [key, values] of innerDirectives) for (const value of values)
addDirective(...)`). -/
def mergeDirInto (acc inner : DirMap) : DirMap :=
  inner.foldl (fun a e => e.2.foldl (fun a2 v => addDirective a2 e.1 v) a) acc

/-- `parseDirectives` from parser.ts: the line scanner over `split('\n')`,
then the recursive rescan of every nested `<Name ...>...</Name>` sub-block,
whose directives are merged into the same map. -/
def parseDirectives (content : List Char) : DirMap :=
  (nestedInteriors content).attach.foldl
    (fun acc t => mergeDirInto acc (parseDirectives t.1))
    (scanLines (splitOnChar '\n' content))
  termination_by content.length
  decreasing_by
    exact nestedInteriors_mem_lt content t.1 t.2

/-! ### Site records (`VirtualHost` objects of parser.ts)

The `id` field of the source (an md5 hash prefix of the domain) identifies
the record content-addressably; it is derived from `serverName` alone and no
claim mentions it, so the hash itself is not modelled. -/

inductive DomainType
  | node
  | php
  | static
deriving DecidableEq

inductive SSLStatus
  | active
  | expiring
  | expired
  | none
deriving DecidableEq

structure SSLInfo where
  enabled : Bool
  expiresAt : Option Int
  daysUntilExpiry : Option Int
  status : SSLStatus
deriving DecidableEq

structure VirtualHost where
  serverName : List Char
  type : DomainType
  port : Option Nat
  documentRoot : Option (List Char)
  errorLog : Option (List Char)
  accessLog : Option (List Char)
  isSubdomain : Bool
  parentDomain : Option (List Char)
  ssl : SSLInfo
  rawConfig : List Char
deriving DecidableEq

/-- `extractAllDomains`: the first `ServerName` value, then every
whitespace-separated name of every `ServerAlias` line. -/
def extractAllDomains (directives : DirMap) : List (List Char) :=
  (match dmLookup directives sServerNameKey with
   | some (v :: _) => [v]
   | _ => []) ++
  ((dmLookup directives sServerAliasKey).getD []).foldr
    (fun aliasLine acc => wordsOf aliasLine ++ acc) []

/-- A parsed `<VirtualHost>` block (`ParsedVHostBlock` of parser.ts). -/
structure ParsedVHostBlock where
  rawConfig : List Char
  domains : List (List Char)
  directives : DirMap
deriving DecidableEq

/-- `extractVirtualHostBlocks`: every regex match becomes a block carrying
the raw matched text, its directive map and its declared domains. -/
def extractVirtualHostBlocks (content : List Char) : List ParsedVHostBlock :=
  (extractVHostSpans content).map fun sp =>
    let directives := parseDirectives sp.interior
    ⟨sp.raw, extractAllDomains directives, directives⟩

/-- `detectDomainType`: `ProxyPass`/`ProxyPassMatch` present means a
proxy-backed (`node`) site; otherwise any `php_*` directive or an
`AddHandler`/`SetHandler` value matching `/php/i` means `php`; otherwise
`static` (with or without `DocumentRoot`). -/
def detectDomainType (directives : DirMap) : DomainType :=
  if containsKey directives sProxyPassKey || containsKey directives sProxyPassMatchKey then
    .node
  else if directives.any (fun e =>
      prefixB sPhpPrefix e.1 ||
      ((e.1 == sAddHandlerKey || e.1 == sSetHandlerKey) &&
        e.2.any (fun v => containsSub sPhp (toLowerStr v)))) then
    .php
  else if containsKey directives sDocumentRootKey then
    .static
  else
    .static

/-- One attempt of the proxy-port regex
`/(?:https?|wss?):\/\/(?:127\.0\.0\.1|localhost):(\d+)/i` at the current
position.  The optional `s` of the scheme is greedy (taken when present,
retried without it otherwise); the host alternatives are tried left to
right; `(\d+)` is the maximal digit run. -/
def matchPortAfterScheme (t : List Char) : Option (Nat × List Char) :=
  match ciPrefixConsume sSchemeSep t with
  | Option.none => Option.none
  | some (_, t1) =>
    let afterHost :=
      match ciPrefixConsume sLoopbackIp t1 with
      | some (_, t2) => some t2
      | Option.none =>
        match ciPrefixConsume sLocalhost t1 with
        | some (_, t2) => some t2
        | Option.none => Option.none
    match afterHost with
    | Option.none => Option.none
    | some t2 =>
      match expectChar ':' t2 with
      | Option.none => Option.none
      | some t3 =>
        let digits := t3.takeWhile digitChar
        if digits.isEmpty then Option.none
        else some (digitsToNat digits, t3.dropWhile digitChar)

def matchProxyUrl (s : List Char) : Option (Nat × List Char) :=
  match ciPrefixConsume sHttp s with
  | some (_, t) =>
    (match ciPrefixConsume ("s".data) t with
     | some (_, t') => matchPortAfterScheme t'
     | Option.none => Option.none).orElse
      (fun _ => matchPortAfterScheme t)
  | Option.none =>
    match ciPrefixConsume sWs s with
    | some (_, t) =>
      (match ciPrefixConsume ("s".data) t with
       | some (_, t') => matchPortAfterScheme t'
       | Option.none => Option.none).orElse
        (fun _ => matchPortAfterScheme t)
    | Option.none => Option.none

/-- `extractProxyPort`: scan the `ProxyPass` then `ProxyPassMatch` values;
the first line containing a loopback proxy URL yields its port. -/
def extractProxyPort (directives : DirMap) : Option Nat :=
  let proxyLines := ((dmLookup directives sProxyPassKey).getD []) ++
                    ((dmLookup directives sProxyPassMatchKey).getD [])
  proxyLines.foldl
    (fun acc line =>
      match acc with
      | some p => some p
      | Option.none =>
        match firstSplit matchProxyUrl line with
        | some (_, port, _) => some port
        | Option.none => Option.none)
    Option.none

/-- Join domain labels with dots (`parts.join('.')`). -/
def joinDot : List (List Char) → List Char
  | [] => []
  | p :: ps => p ++ ps.foldr (fun q acc => '.' :: q ++ acc) []

/-- `analyzeServerName`: more than two dot-separated labels means a
subdomain whose parent is the last two labels; no set lookup is involved. -/
def analyzeServerName (serverName : List Char) : Bool × Option (List Char) :=
  let parts := splitOnChar '.' serverName
  if parts.length > 2 then
    (true, some (joinDot (parts.drop (parts.length - 2))))
  else
    (false, Option.none)

/-- `createVirtualHost` from parser.ts (the `id` hash aside, see above). -/
def createVirtualHost (domain primaryDomain : List Char)
    (block : ParsedVHostBlock) : VirtualHost :=
  let directives := block.directives
  let an := analyzeServerName domain
  let customLog := getFirstDirective directives sCustomLogKey
  let hasSSL := containsKey directives sSslEngineKey ||
                containsKey directives sSslCertFileKey ||
                containsKey directives sSslCertKeyFileKey
  let sslEngine := getFirstDirective directives sSslEngineKey
  let sslEnabled := hasSSL &&
    (match sslEngine with
     | Option.none => true
     | some v => v.isEmpty || toLowerStr v == sOn)
  { serverName := domain
    type := detectDomainType directives
    port := extractProxyPort directives
    documentRoot := getFirstDirective directives sDocumentRootKey
    errorLog := getFirstDirective directives sErrorLogKey
    accessLog :=
      match customLog with
      | some c => if c.isEmpty then Option.none
                  else some (c.takeWhile (fun x => !(wsChar x)))
      | Option.none => Option.none
    isSubdomain := an.1
    parentDomain :=
      match an.2 with
      | some p => some p
      | Option.none => if domain ≠ primaryDomain then some primaryDomain else Option.none
    ssl := if sslEnabled then ⟨true, Option.none, Option.none, .active⟩
           else ⟨false, Option.none, Option.none, .none⟩
    rawConfig := block.rawConfig }

/-- `parseApacheConfig`: an absent file (`existsSync` false) yields `[]`;
otherwise every block with at least one declared domain produces one
`VirtualHost` per domain, the first domain being the primary one. -/
def parseApacheConfig (content? : Option (List Char)) : List VirtualHost :=
  match content? with
  | Option.none => []
  | some content =>
    (extractVirtualHostBlocks content).bind fun b =>
      match b.domains with
      | [] => []
      | primary :: _ => b.domains.map fun d => createVirtualHost d primary b

/-! ### Certificate metadata loader (`loadSSLInfo`)

The renewal directory is modelled as `Option` (absent directory ⇒ `none`)
of the listed `(fileName, fileContent)` pairs.  `new Date(...).getTime()`
is an external primitive; it is passed in as `dateParse`, producing the
expiry timestamp in milliseconds. -/

/-- One attempt of `/expiry_date\s*=\s*(.+)/` at the current position:
the literal, greedy whitespace, `=`, then the capture.  The second `\s*` is
greedy but backtracks until `(.+)` can take at least one non-newline
character. -/
def capAfterWsGo : Nat → List Char → Option (List Char)
  | 0, u =>
    let cap := u.takeWhile (fun c => c != '\n')
    if cap.isEmpty then Option.none else some cap
  | j + 1, u =>
    let cap := (u.drop (j + 1)).takeWhile (fun c => c != '\n')
    if cap.isEmpty then capAfterWsGo j u else some cap

def capAfterWs (u : List Char) : Option (List Char) :=
  capAfterWsGo (u.takeWhile wsChar).length u

def matchExpiry (s : List Char) : Option (List Char × List Char) :=
  if prefixB sExpiryDate s then
    match expectChar '=' ((s.drop sExpiryDate.length).dropWhile wsChar) with
    | Option.none => Option.none
    | some u =>
      match capAfterWs u with
      | some cap => some (cap, [])
      | Option.none => Option.none
  else Option.none

/-- The `match[1]` capture of the first `/expiry_date\s*=\s*(.+)/` match. -/
def extractExpiryRaw (content : List Char) : Option (List Char) :=
  (firstSplit matchExpiry content).map (fun q => q.2.1)

/-- JS `String.replace` with a plain-string pattern: first occurrence only. -/
def replaceFirstStr (pat repl : List Char) (l : List Char) : List Char :=
  match firstSplit
      (fun s => if prefixB pat s then some ((), s.drop pat.length) else Option.none) l with
  | some (pre, _, rest) => pre ++ repl ++ rest
  | Option.none => l

/-- The status chain of `loadSSLInfo`: start from `active`, `expired` when
negative, `expiring` when at most 7. -/
def sslStatusOfDays (d : Int) : SSLStatus :=
  if d < 0 then .expired else if d ≤ 7 then .expiring else .active

/-- `loadSSLInfo`: absent directory ⇒ empty map; otherwise every `.conf`
file with an `expiry_date` line yields an entry for `file.replace('.conf','')`
with `daysUntilExpiry = floor((expiry - now) / (1000*60*60*24))`. -/
def loadSSLInfo (dateParse : List Char → Int)
    (renewalDir : Option (List (List Char × List Char))) (now : Int) :
    List (List Char × SSLInfo) :=
  match renewalDir with
  | Option.none => []
  | some entries =>
    (entries.filter (fun e => endsWithStr sDotConf e.1)).foldl
      (fun acc e =>
        match extractExpiryRaw e.2 with
        | Option.none => acc
        | some raw =>
          let expiresAt := dateParse (trim raw)
          let daysUntilExpiry := Int.fdiv (expiresAt - now) (1000 * 60 * 60 * 24)
          acc ++ [(replaceFirstStr sDotConf [] e.1,
            ⟨true, some expiresAt, some daysUntilExpiry, sslStatusOfDays daysUntilExpiry⟩)])
      []

/-! ### The merge of `getAllVirtualHosts`

A JS `Map` keyed by `serverName`: `Map.set` keeps the original insertion
position when the key exists, and the HTTPS pass mutates only the `ssl`
field of an existing record. -/

abbrev VMap := List (List Char × VirtualHost)

def vmapLookup (m : VMap) (k : List Char) : Option VirtualHost :=
  match m with
  | [] => Option.none
  | e :: es => if e.1 = k then some e.2 else vmapLookup es k

def vmapHas (m : VMap) (k : List Char) : Bool :=
  (vmapLookup m k).isSome

/-- Replace the value stored at key `k` (the in-place part of JS
`Map.set` / field mutation of the held object). -/
def vmapUpd (m : VMap) (k : List Char) (f : VirtualHost → VirtualHost) : VMap :=
  m.map (fun e => if e.1 = k then (e.1, f e.2) else e)

def vmapSet (m : VMap) (k : List Char) (v : VirtualHost) : VMap :=
  if vmapHas m k then vmapUpd m k (fun _ => v)
  else m ++ [(k, v)]

def sslLookup (ssl : List (List Char × SSLInfo)) (k : List Char) : Option SSLInfo :=
  match ssl with
  | [] => Option.none
  | e :: es => if e.1 = k then some e.2 else sslLookup es k

/-- The fallback `{ enabled: true, status: 'active' }` used for HTTPS-file
records without certificate metadata. -/
def defaultHttpsSSL : SSLInfo := ⟨true, Option.none, Option.none, .active⟩

/-- The HTTPS pass of the merge: update the `ssl` of an existing record, or
insert the HTTPS record with its `ssl` replaced. -/
def mergeHttpsStep (ssl : List (List Char × SSLInfo)) (m : VMap) (v : VirtualHost) : VMap :=
  if vmapHas m v.serverName then
    vmapUpd m v.serverName
      (fun h => { h with ssl := (sslLookup ssl v.serverName).getD defaultHttpsSSL })
  else
    vmapSet m v.serverName
      { v with ssl := (sslLookup ssl v.serverName).getD defaultHttpsSSL }

/-- `getAllVirtualHosts` (pure core): parse both files, key the HTTP records
by name, merge the HTTPS records, return the map's values. -/
def getAllVirtualHosts (httpC httpsC : Option (List Char))
    (ssl : List (List Char × SSLInfo)) : List VirtualHost :=
  let httpVhosts := parseApacheConfig httpC
  let httpsVhosts := parseApacheConfig httpsC
  let m1 : VMap := httpVhosts.foldl (fun m v => vmapSet m v.serverName v) []
  (httpsVhosts.foldl (mergeHttpsStep ssl) m1).map (·.2)

/-! ### Mutation engine (manager.ts)

Each external command is summarised by its observable outcome: whether it
exited zero and its captured stdout/stderr.  `execCommand` raises on a
non-zero exit but still exposes both streams on the thrown error, which is
what `replaceConfigFile` reads back in its catch branch, so the combined
configtest output is the same in both branches.

Outcomes record the final target-file content, how many times the target
path was written (the commit copy and any backup restore), how many syntax
checks ran, how many reload attempts were issued, and the error, if any. -/

structure CmdResult where
  exitOk : Bool
  stdout : List Char
  stderr : List Char
deriving DecidableEq

def combinedOutput (r : CmdResult) : List Char := r.stdout ++ r.stderr

inductive MutError
  | invalidFile
  | backupFail
  | copyFail
  | validationFail
  | reloadFail
  | writeFail
  | syntaxCmdFail
  | certbotFail
deriving DecidableEq

structure MutOutcome where
  target : Option (List Char)
  targetWrites : Nat
  syntaxChecks : Nat
  reloads : Nat
  error : Option MutError
deriving DecidableEq

structure ReplaceEnv where
  backupCpOk : Bool
  commitCpOk : Bool
  configtest : CmdResult
  reloadOk : Bool
deriving DecidableEq

/-- `replaceConfigFile` from manager.ts.  Steps: tag check, temp write
(not the target), backup copy when the target exists, privileged commit
copy, configtest whose success is `validationOutput.includes('Syntax OK')`
(both the try and the catch branch expose `stdout + stderr`), error-copy
saving and backup restore on validation failure (no reload), reload on
success with restore-and-retry on reload failure.  Restores of an existing
backup are modelled as succeeding, as the source swallows restore errors. -/
def replaceConfigFile (env : ReplaceEnv) (current : Option (List Char))
    (content : List Char) : MutOutcome :=
  if !(containsSub sOpenTagLit content && containsSub sCloseTagLit content) then
    ⟨current, 0, 0, 0, some .invalidFile⟩
  else if current.isSome && !env.backupCpOk then
    ⟨current, 0, 0, 0, some .backupFail⟩
  else if !env.commitCpOk then
    ⟨current, 0, 0, 0, some .copyFail⟩
  else
    let backupMade := current.isSome && env.backupCpOk
    let validationOutput := combinedOutput env.configtest
    if !(containsSub okMarker validationOutput) then
      if backupMade then ⟨current, 2, 1, 0, some .validationFail⟩
      else ⟨some content, 1, 1, 0, some .validationFail⟩
    else if env.reloadOk then
      ⟨some content, 1, 1, 1, Option.none⟩
    else if backupMade then
      ⟨current, 2, 1, 2, some .reloadFail⟩
    else
      ⟨some content, 1, 1, 1, some .reloadFail⟩

structure AddEnv where
  writeCpOk : Bool
  configtest : CmdResult
  reloadOk : Bool
  certbotOk : Bool
deriving DecidableEq

/-- The `VirtualHost` template for a proxy-backed domain
(`generateNodeVirtualHost`). -/
def generateNodeVirtualHost (serverName : List Char) (port : Nat) : List Char :=
  "\n<VirtualHost *:80>\n    ServerName ".data ++ serverName ++
  "\n    ProxyPreserveHost On\n    ProxyPass / http://127.0.0.1:".data ++
  (Nat.repr port).data ++
  "/\n    ProxyPassReverse / http://127.0.0.1:".data ++ (Nat.repr port).data ++
  "/\n    ErrorLog /var/log/httpd/".data ++ serverName ++
  "-error.log\n    CustomLog /var/log/httpd/".data ++ serverName ++
  "-access.log combined\n</VirtualHost>\n".data

/-- The file-mutation tail of `addDomain` (manager.ts lines 205-227; the
input validations above it reject before any file I/O and are orthogonal to
the modelled steps): append the generated block, write via
`writeProtectedFile` (no backup is taken), then `await execCommand('apachectl
configtest')` — whose success is solely the process exit status — then
reload, then certbot.  No step restores the previous content. -/
def addDomain (env : AddEnv) (current : Option (List Char))
    (vhostConfig : List Char) : MutOutcome :=
  let newConfig := (current.getD []) ++ '\n' :: vhostConfig
  if !env.writeCpOk then
    ⟨current, 0, 0, 0, some .writeFail⟩
  else if !env.configtest.exitOk then
    ⟨some newConfig, 1, 1, 0, some .syntaxCmdFail⟩
  else if !env.reloadOk then
    ⟨some newConfig, 1, 1, 1, some .reloadFail⟩
  else if !env.certbotOk then
    ⟨some newConfig, 1, 1, 1, some .certbotFail⟩
  else
    ⟨some newConfig, 1, 1, 1, Option.none⟩

/-! ### The removal regex of `removeDomain`

`new RegExp('<VirtualHost[^>]*>\\s*?[\\s\\S]*?ServerName\\s+' + name +
'(?:\\s|\\n)[\\s\\S]*?<\\/VirtualHost>\\s*?', 'gm')` followed by
`content.replace(regex, '')`.  The flags are `gm` (case-sensitive); the
leading `\s*?[\s\S]*?` collapses to a lazy any-run; `\s+` is greedy over the
run after `ServerName` and backtracks until the literal name follows;
`(?:\s|\n)` consumes one whitespace character; the trailing `\s*?` is lazy at
the end of the pattern and so matches nothing. -/

/-- `ServerName\s+<name>(?:\s|\n)` at the current position: try each split
of the whitespace run from longest to shortest (greedy `\s+`). -/
def snTryDrops (name : List Char) (u : List Char) : Nat → Option (List Char)
  | 0 => Option.none
  | j + 1 =>
    if prefixB name (u.drop (j + 1)) then
      match (u.drop (j + 1)).drop name.length with
      | c :: cs => if wsChar c then some cs else snTryDrops name u j
      | [] => snTryDrops name u j
    else snTryDrops name u j

def matchServerNameTarget (name : List Char) (s : List Char) : Option (Unit × List Char) :=
  if prefixB sServerName s then
    let u := s.drop sServerName.length
    match snTryDrops name u (u.takeWhile wsChar).length with
    | some rest => some ((), rest)
    | Option.none => Option.none
  else Option.none

/-- The anchored literal matcher for `<\/VirtualHost>`. -/
def matchCloseLit (s : List Char) : Option (Unit × List Char) :=
  if prefixB sCloseTagLit s then some ((), s.drop sCloseTagLit.length)
  else Option.none

/-- One whole-pattern attempt of the removal regex: the case-sensitive open
tag, the earliest following `ServerName\s+name\s` (failure of a later close
for the earliest occurrence implies failure for all later ones, so trying
the earliest is exact), then the earliest following `</VirtualHost>`.
Returns the text after the match. -/
def matchRemoveSpan (name : List Char) (s : List Char) : Option (Unit × List Char) :=
  if prefixB sOpenTagLit s then
    match expectChar '>' ((s.drop sOpenTagLit.length).dropWhile (fun c => c != '>')) with
    | Option.none => Option.none
    | some afterGt =>
      match firstSplit (matchServerNameTarget name) afterGt with
      | Option.none => Option.none
      | some (_, _, afterSN) =>
        match firstSplit matchCloseLit afterSN with
        | Option.none => Option.none
        | some (_, _, rest) => some ((), rest)
  else Option.none

theorem snTryDrops_rest_lt {name u : List Char} :
    ∀ (j : Nat) (r : List Char), snTryDrops name u j = some r →
      r.length < u.length + 1 := by
  intro j
  induction j with
  | zero => intro r h; simp [snTryDrops] at h
  | succ k ih =>
    intro r h
    unfold snTryDrops at h
    split at h
    · split at h
      · next heq =>
        split at h
        · cases h
          have h1 : ((u.drop (k + 1)).drop name.length).length ≤ u.length := by
            simp only [List.length_drop]
            omega
          rw [heq] at h1
          simp at h1
          omega
        · exact ih r h
      · exact ih r h
    · exact ih r h

theorem prefixB_length : ∀ (p s : List Char), prefixB p s = true → p.length ≤ s.length := by
  intro p
  induction p with
  | nil => intro s _; simp
  | cons a as ih =>
    intro s h
    cases s with
    | nil => simp [prefixB] at h
    | cons b bs =>
      simp only [prefixB, Bool.and_eq_true] at h
      have := ih bs h.2
      simp only [List.length_cons]
      omega

theorem matchServerNameTarget_rest_lt {name s : List Char} {a : Unit} {r : List Char}
    (h : matchServerNameTarget name s = some (a, r)) : r.length < s.length := by
  unfold matchServerNameTarget at h
  split at h
  · next hp =>
    dsimp only at h
    cases hs : snTryDrops name (s.drop sServerName.length)
      ((s.drop sServerName.length).takeWhile wsChar).length with
    | none => rw [hs] at h; cases h
    | some rest =>
      rw [hs] at h
      cases h
      have h1 := snTryDrops_rest_lt _ _ hs
      have h2 : (s.drop sServerName.length).length = s.length - 10 := by
        simp [List.length_drop, sServerName]
      have h3 : (10 : Nat) ≤ s.length := by
        have := prefixB_length sServerName s hp
        simpa [sServerName] using this
      omega
  · cases h

theorem matchCloseLit_rest_lt {s : List Char} {a : Unit} {r : List Char}
    (h : matchCloseLit s = some (a, r)) : r.length < s.length := by
  unfold matchCloseLit at h
  split at h
  · next hp =>
    cases h
    have h1 := prefixB_length sCloseTagLit s hp
    simp only [List.length_drop]
    simp [sCloseTagLit] at h1 ⊢
    omega
  · cases h

theorem matchRemoveSpan_rest_lt (name : List Char) :
    ∀ (s : List Char) (a : Unit) (r : List Char),
      matchRemoveSpan name s = some (a, r) → r.length < s.length := by
  intro s a r h
  unfold matchRemoveSpan at h
  split at h
  · next hp =>
    cases h1 : expectChar '>' ((s.drop sOpenTagLit.length).dropWhile (fun c => c != '>')) with
    | none => rw [h1] at h; cases h
    | some afterGt =>
      rw [h1] at h
      dsimp only at h
      cases h2 : firstSplit (matchServerNameTarget name) afterGt with
      | none => rw [h2] at h; cases h
      | some q =>
        obtain ⟨q1, q2, q3⟩ := q
        rw [h2] at h
        dsimp only at h
        cases h3 : firstSplit matchCloseLit q3 with
        | none => rw [h3] at h; cases h
        | some w =>
          obtain ⟨w1, w2, w3⟩ := w
          rw [h3] at h
          cases h
          have e1 := expectChar_rest_lt h1
          have e2 := firstSplit_rest_lt (matchServerNameTarget name)
            (fun _ _ _ hh => matchServerNameTarget_rest_lt hh) _ _ _ _ h2
          have e3 := firstSplit_rest_lt matchCloseLit
            (fun _ _ _ hh => matchCloseLit_rest_lt hh) _ _ _ _ h3
          have e4 := length_dropWhile_le' (fun c => c != '>') (s.drop sOpenTagLit.length)
          have e5 : (s.drop sOpenTagLit.length).length ≤ s.length := by
            simp [List.length_drop]
          omega
  · cases h

/-- `content.replace(removalRegex, '')`: delete every successive match. -/
def removeVhostBlocks (name : List Char) (content : List Char) : List Char :=
  match h : firstSplit (matchRemoveSpan name) content with
  | Option.none => content
  | some (pre, _, rest) => pre ++ removeVhostBlocks name rest
  termination_by content.length
  decreasing_by
    exact firstSplit_rest_lt (matchRemoveSpan name)
      (matchRemoveSpan_rest_lt name) _ _ _ _ h

/-! ### Association-map lemmas for the merge -/

theorem vmapLookup_upd_self (m : VMap) (k : List Char) (f : VirtualHost → VirtualHost) :
    vmapLookup (vmapUpd m k f) k = (vmapLookup m k).map f := by
  induction m with
  | nil => rfl
  | cons e es ih =>
    by_cases hk : e.1 = k
    · simp [vmapUpd, vmapLookup, hk]
    · simp only [vmapUpd, List.map_cons, if_neg hk, vmapLookup, vmapUpd] at ih ⊢
      exact ih

theorem vmapLookup_upd_other (m : VMap) (k k' : List Char)
    (f : VirtualHost → VirtualHost) (hne : k' ≠ k) :
    vmapLookup (vmapUpd m k f) k' = vmapLookup m k' := by
  induction m with
  | nil => rfl
  | cons e es ih =>
    by_cases hk : e.1 = k
    · have hne2 : ¬ (e.1 = k') := fun hc => hne (by rw [← hc, hk])
      simp only [vmapUpd, List.map_cons, if_pos hk, vmapLookup] at ih ⊢
      rw [if_neg hne2, if_neg hne2]
      exact ih
    · simp only [vmapUpd, List.map_cons, if_neg hk, vmapLookup] at ih ⊢
      by_cases he : e.1 = k'
      · rw [if_pos he, if_pos he]
      · rw [if_neg he, if_neg he]
        exact ih

theorem vmapLookup_append_nomatch (m : VMap) (k : List Char) (e : List Char × VirtualHost)
    (h : vmapLookup m k = Option.none) :
    vmapLookup (m ++ [e]) k = if e.1 = k then some e.2 else Option.none := by
  induction m with
  | nil => rfl
  | cons e0 es ih =>
    by_cases h0 : e0.1 = k
    · simp [vmapLookup, h0] at h
    · simp only [vmapLookup, if_neg h0] at h
      simp only [List.cons_append, vmapLookup, if_neg h0]
      exact ih h

theorem vmapHas_iff (m : VMap) (k : List Char) :
    vmapHas m k = true ↔ vmapLookup m k ≠ Option.none := by
  unfold vmapHas
  cases vmapLookup m k <;> simp

theorem vmapLookup_set_self (m : VMap) (k : List Char) (v : VirtualHost) :
    vmapLookup (vmapSet m k v) k = some v := by
  unfold vmapSet
  split
  · next hh =>
    rw [vmapLookup_upd_self]
    rcases hl : vmapLookup m k with - | w
    · rw [vmapHas_iff] at hh; exact absurd hl hh
    · rfl
  · next hh =>
    have hl : vmapLookup m k = Option.none := by
      by_contra hc
      exact hh ((vmapHas_iff m k).mpr hc)
    rw [vmapLookup_append_nomatch m k (k, v) hl]
    simp

theorem vmapLookup_append_single_other (m : VMap) (k k' : List Char)
    (v : VirtualHost) (hne : k' ≠ k) :
    vmapLookup (m ++ [(k, v)]) k' = vmapLookup m k' := by
  induction m with
  | nil =>
    simp only [List.nil_append, vmapLookup]
    rw [if_neg (show ¬ (k = k') from fun hc => hne hc.symm)]
  | cons e0 es ih =>
    by_cases h0 : e0.1 = k'
    · simp [vmapLookup, h0]
    · simp only [List.cons_append, vmapLookup, if_neg h0]
      exact ih

theorem vmapLookup_set_other (m : VMap) (k k' : List Char) (v : VirtualHost)
    (hne : k' ≠ k) : vmapLookup (vmapSet m k v) k' = vmapLookup m k' := by
  unfold vmapSet
  split
  · exact vmapLookup_upd_other m k k' _ hne
  · exact vmapLookup_append_single_other m k k' v hne

/-- Every entry of an updated map is an old entry or the rewritten one. -/
theorem mem_vmapUpd (m : VMap) (k : List Char) (f : VirtualHost → VirtualHost)
    (e' : List Char × VirtualHost) (h : e' ∈ vmapUpd m k f) :
    e' ∈ m ∨ ∃ e ∈ m, e.1 = k ∧ e' = (e.1, f e.2) := by
  unfold vmapUpd at h
  obtain ⟨e, hmem, heq⟩ := List.mem_map.mp h
  by_cases hk : e.1 = k
  · right; exact ⟨e, hmem, hk, by rw [← heq, if_pos hk]⟩
  · left; rw [← heq, if_neg hk]; exact hmem

theorem mem_vmapSet (m : VMap) (k : List Char) (v : VirtualHost)
    (e' : List Char × VirtualHost) (h : e' ∈ vmapSet m k v) :
    e' ∈ m ∨ e'.2 = v := by
  unfold vmapSet at h
  split at h
  · rcases mem_vmapUpd m k _ e' h with h1 | ⟨e, -, -, he⟩
    · exact Or.inl h1
    · right; rw [he]
  · rcases List.mem_append.mp h with h1 | h1
    · exact Or.inl h1
    · right; simp at h1; rw [h1]

theorem mem_mergeHttpsStep (ssl : List (List Char × SSLInfo)) (m : VMap)
    (v : VirtualHost) (e' : List Char × VirtualHost)
    (h : e' ∈ mergeHttpsStep ssl m v) :
    e' ∈ m ∨ (∃ e ∈ m, e'.2 = { e.2 with
        ssl := (sslLookup ssl v.serverName).getD defaultHttpsSSL }) ∨
      e'.2 = { v with ssl := (sslLookup ssl v.serverName).getD defaultHttpsSSL } := by
  unfold mergeHttpsStep at h
  split at h
  · rcases mem_vmapUpd _ _ _ _ h with h1 | ⟨e, hmem, -, he⟩
    · exact Or.inl h1
    · exact Or.inr (Or.inl ⟨e, hmem, by rw [he]⟩)
  · rcases mem_vmapSet _ _ _ _ h with h1 | h1
    · exact Or.inl h1
    · exact Or.inr (Or.inr h1)

/-- The HTTP pass of the merge, building the name-keyed map. -/
def buildVMap (vs : List VirtualHost) : VMap :=
  vs.foldl (fun m v => vmapSet m v.serverName v) []

theorem getAllVirtualHosts_eq (httpC httpsC : Option (List Char))
    (ssl : List (List Char × SSLInfo)) :
    getAllVirtualHosts httpC httpsC ssl =
      ((parseApacheConfig httpsC).foldl (mergeHttpsStep ssl)
        (buildVMap (parseApacheConfig httpC))).map (·.2) := rfl

theorem vmapLookup_mem (m : VMap) (k : List Char) (r : VirtualHost)
    (h : vmapLookup m k = some r) : (k, r) ∈ m := by
  induction m with
  | nil => cases h
  | cons e es ih =>
    unfold vmapLookup at h
    split at h
    · next he =>
      cases h
      subst he
      exact List.mem_cons_self _ _
    · exact List.mem_cons_of_mem _ (ih h)

theorem vmapLookup_none_iff (m : VMap) (k : List Char) :
    vmapLookup m k = Option.none ↔ k ∉ m.map (·.1) := by
  induction m with
  | nil => simp [vmapLookup]
  | cons e es ih =>
    unfold vmapLookup
    by_cases he : e.1 = k
    · rw [if_pos he]
      constructor
      · intro h; cases h
      · intro h
        exfalso
        exact h (by rw [List.map_cons, ← he]; exact List.mem_cons_self _ _)
    · rw [if_neg he, ih, List.map_cons]
      constructor
      · intro h hc
        rcases List.mem_cons.mp hc with hc | hc
        · exact he hc.symm
        · exact h hc
      · intro h hc
        exact h (List.mem_cons_of_mem _ hc)

theorem keys_vmapUpd (m : VMap) (k : List Char) (f : VirtualHost → VirtualHost) :
    (vmapUpd m k f).map (·.1) = m.map (·.1) := by
  unfold vmapUpd
  rw [List.map_map]
  apply List.map_congr_left
  intro e _
  simp only [Function.comp]
  by_cases he : e.1 = k
  · rw [if_pos he]
  · rw [if_neg he]

theorem keys_nodup_vmapSet (m : VMap) (k : List Char) (v : VirtualHost)
    (h : (m.map (·.1)).Nodup) : ((vmapSet m k v).map (·.1)).Nodup := by
  unfold vmapSet
  split
  · rw [keys_vmapUpd]; exact h
  · next hh =>
    have hk : k ∉ m.map (·.1) := by
      rw [← vmapLookup_none_iff]
      by_contra hc
      exact hh ((vmapHas_iff m k).mpr hc)
    rw [List.map_append, List.nodup_append]
    refine ⟨h, List.nodup_singleton _, ?_⟩
    intro a ha hb
    rw [List.map_singleton, List.mem_singleton] at hb
    subst hb
    exact hk ha

theorem keys_nodup_mergeHttpsStep (ssl : List (List Char × SSLInfo)) (m : VMap)
    (v : VirtualHost) (h : (m.map (·.1)).Nodup) :
    ((mergeHttpsStep ssl m v).map (·.1)).Nodup := by
  unfold mergeHttpsStep
  split
  · rw [keys_vmapUpd]; exact h
  · exact keys_nodup_vmapSet _ _ _ h

theorem keys_nodup_buildVMap (vs : List VirtualHost) :
    ((buildVMap vs).map (·.1)).Nodup := by
  unfold buildVMap
  suffices hgen : ∀ (m : VMap), (m.map (·.1)).Nodup →
      ((vs.foldl (fun m v => vmapSet m v.serverName v) m).map (·.1)).Nodup by
    exact hgen [] (by simp)
  induction vs with
  | nil => intro m hm; simpa using hm
  | cons v rest ih =>
    intro m hm
    exact ih _ (keys_nodup_vmapSet m v.serverName v hm)

theorem keys_nodup_mergeFold (ssl : List (List Char × SSLInfo)) :
    ∀ (vs : List VirtualHost) (m : VMap), (m.map (·.1)).Nodup →
      ((vs.foldl (mergeHttpsStep ssl) m).map (·.1)).Nodup := by
  intro vs
  induction vs with
  | nil => intro m hm; simpa using hm
  | cons v rest ih =>
    intro m hm
    exact ih _ (keys_nodup_mergeHttpsStep ssl m v hm)

/-- Every entry's key is its record's `serverName`. -/
def entriesNamed (m : VMap) : Prop := ∀ e ∈ m, e.2.serverName = e.1

theorem entriesNamed_vmapSet (m : VMap) (k : List Char) (v : VirtualHost)
    (hv : v.serverName = k) (h : entriesNamed m) :
    entriesNamed (vmapSet m k v) := by
  intro e' he'
  unfold vmapSet at he'
  split at he'
  · rcases mem_vmapUpd _ _ _ _ he' with h1 | ⟨e, hmem, hke, heq⟩
    · exact h e' h1
    · rw [heq]
      simpa [hke] using hv
  · rcases List.mem_append.mp he' with h1 | h1
    · exact h e' h1
    · rcases List.mem_singleton.mp h1 with rfl
      simpa using hv

theorem entriesNamed_mergeHttpsStep (ssl : List (List Char × SSLInfo)) (m : VMap)
    (v : VirtualHost) (h : entriesNamed m) :
    entriesNamed (mergeHttpsStep ssl m v) := by
  unfold mergeHttpsStep
  split
  · intro e' he'
    rcases mem_vmapUpd _ _ _ _ he' with h1 | ⟨e, hmem, hke, heq⟩
    · exact h e' h1
    · rw [heq]
      exact h e hmem
  · exact entriesNamed_vmapSet m v.serverName _ rfl h

theorem entriesNamed_buildVMap (vs : List VirtualHost) : entriesNamed (buildVMap vs) := by
  unfold buildVMap
  suffices hgen : ∀ (m : VMap), entriesNamed m →
      entriesNamed (vs.foldl (fun m v => vmapSet m v.serverName v) m) by
    exact hgen [] (by intro e he; cases he)
  induction vs with
  | nil => intro m hm; exact hm
  | cons v rest ih =>
    intro m hm
    exact ih _ (entriesNamed_vmapSet m v.serverName v rfl hm)

theorem entriesNamed_mergeFold (ssl : List (List Char × SSLInfo)) :
    ∀ (vs : List VirtualHost) (m : VMap), entriesNamed m →
      entriesNamed (vs.foldl (mergeHttpsStep ssl) m) := by
  intro vs
  induction vs with
  | nil => intro m hm; exact hm
  | cons v rest ih =>
    intro m hm
    exact ih _ (entriesNamed_mergeHttpsStep ssl m v hm)

/-- A value of a name-keyed, key-distinct map is exactly the result of
looking up its own name. -/
theorem vmapLookup_of_mem_value (m : VMap) (r : VirtualHost)
    (hnd : (m.map (·.1)).Nodup) (hnm : entriesNamed m)
    (e : List Char × VirtualHost) (hmem : e ∈ m) (hval : e.2 = r) :
    vmapLookup m r.serverName = some r := by
  induction m with
  | nil => cases hmem
  | cons e0 es ih =>
    have hk0 : e0.2.serverName = e0.1 := hnm e0 (List.mem_cons_self _ _)
    rcases List.mem_cons.mp hmem with rfl | hmem2
    · unfold vmapLookup
      rw [hval] at hk0
      rw [if_pos hk0.symm, hval]
    · have hr : r.serverName ∈ es.map (·.1) := by
        have := hnm e (List.mem_cons_of_mem _ hmem2)
        rw [hval] at this
        rw [this]
        exact List.mem_map.mpr ⟨e, hmem2, rfl⟩
      have hne : ¬ (e0.1 = r.serverName) := by
        intro hc
        rw [List.map_cons, List.nodup_cons] at hnd
        exact hnd.1 (hc ▸ hr)
      unfold vmapLookup
      rw [if_neg hne]
      exact ih (by rw [List.map_cons, List.nodup_cons] at hnd; exact hnd.2)
        (fun e' he' => hnm e' (List.mem_cons_of_mem _ he')) hmem2

/-! ### Lookup characterization of the HTTPS merge pass -/

theorem mergeHttpsStep_lookup_other (ssl : List (List Char × SSLInfo)) (m : VMap)
    (v : VirtualHost) (d : List Char) (hne : d ≠ v.serverName) :
    vmapLookup (mergeHttpsStep ssl m v) d = vmapLookup m d := by
  unfold mergeHttpsStep
  split
  · exact vmapLookup_upd_other m v.serverName d _ hne
  · exact vmapLookup_set_other m v.serverName d _ hne

theorem mergeHttpsStep_lookup_self (ssl : List (List Char × SSLInfo)) (m : VMap)
    (v : VirtualHost) :
    vmapLookup (mergeHttpsStep ssl m v) v.serverName =
      some (match vmapLookup m v.serverName with
            | some h => { h with ssl := (sslLookup ssl v.serverName).getD defaultHttpsSSL }
            | Option.none => { v with ssl := (sslLookup ssl v.serverName).getD defaultHttpsSSL }) := by
  unfold mergeHttpsStep
  split
  · next hh =>
    rw [vmapLookup_upd_self]
    rcases hl : vmapLookup m v.serverName with - | w
    · rw [vmapHas_iff] at hh; exact absurd hl hh
    · rfl
  · next hh =>
    have hl : vmapLookup m v.serverName = Option.none := by
      by_contra hc
      exact hh ((vmapHas_iff m v.serverName).mpr hc)
    rw [vmapLookup_set_self, hl]

theorem mergeFold_lookup_notmem (ssl : List (List Char × SSLInfo)) :
    ∀ (vs : List VirtualHost) (m : VMap) (d : List Char),
      d ∉ vs.map (·.serverName) →
      vmapLookup (vs.foldl (mergeHttpsStep ssl) m) d = vmapLookup m d := by
  intro vs
  induction vs with
  | nil => intro m d _; rfl
  | cons v rest ih =>
    intro m d hd
    rw [List.map_cons] at hd
    have h1 : d ≠ v.serverName := fun hc => hd (hc ▸ List.mem_cons_self _ _)
    have h2 : d ∉ rest.map (·.serverName) := fun hc => hd (List.mem_cons_of_mem _ hc)
    simp only [List.foldl_cons]
    rw [ih _ d h2, mergeHttpsStep_lookup_other ssl m v d h1]

theorem mergeFold_lookup_mem (ssl : List (List Char × SSLInfo)) :
    ∀ (vs : List VirtualHost) (m : VMap) (d : List Char),
      d ∈ vs.map (·.serverName) →
      (∀ h0, vmapLookup m d = some h0 →
        vmapLookup (vs.foldl (mergeHttpsStep ssl) m) d =
          some { h0 with ssl := (sslLookup ssl d).getD defaultHttpsSSL }) ∧
      (vmapLookup m d = Option.none →
        ∃ b ∈ vs, b.serverName = d ∧
          vmapLookup (vs.foldl (mergeHttpsStep ssl) m) d =
            some { b with ssl := (sslLookup ssl d).getD defaultHttpsSSL }) := by
  intro vs
  induction vs with
  | nil => intro m d hd; cases hd
  | cons v rest ih =>
    intro m d hd
    simp only [List.foldl_cons]
    by_cases hv : v.serverName = d
    · have hself := mergeHttpsStep_lookup_self ssl m v
      rw [hv] at hself
      by_cases hr : d ∈ rest.map (·.serverName)
      · constructor
        · intro h0 hl0
          rw [hl0] at hself
          have := (ih (mergeHttpsStep ssl m v) d hr).1 _ hself
          simpa using this
        · intro hl0
          rw [hl0] at hself
          have := (ih (mergeHttpsStep ssl m v) d hr).1 _ hself
          exact ⟨v, List.mem_cons_self _ _, hv, by simpa [hv] using this⟩
      · have hrest := mergeFold_lookup_notmem ssl rest (mergeHttpsStep ssl m v) d hr
        constructor
        · intro h0 hl0
          rw [hl0] at hself
          rw [hrest, hself]
        · intro hl0
          rw [hl0] at hself
          refine ⟨v, List.mem_cons_self _ _, hv, ?_⟩
          rw [hrest, hself]
          simp [hv]
    · have hd2 : d ∈ rest.map (·.serverName) := by
        rw [List.map_cons] at hd
        rcases List.mem_cons.mp hd with hc | hc
        · exact absurd hc.symm hv
        · exact hc
      have hstep := mergeHttpsStep_lookup_other ssl m v d (fun hc => hv hc.symm)
      constructor
      · intro h0 hl0
        exact (ih _ d hd2).1 h0 (by rw [hstep]; exact hl0)
      · intro hl0
        obtain ⟨b, hb, hbn, hbl⟩ := (ih _ d hd2).2 (by rw [hstep]; exact hl0)
        exact ⟨b, List.mem_cons_of_mem _ hb, hbn, hbl⟩

/-! ### Origin of merged values -/

theorem buildFold_values (S : VirtualHost → Prop) :
    ∀ (vs : List VirtualHost) (m : VMap), (∀ e ∈ m, S e.2) → (∀ v ∈ vs, S v) →
      ∀ e ∈ vs.foldl (fun m v => vmapSet m v.serverName v) m, S e.2 := by
  intro vs
  induction vs with
  | nil => intro m hm _ e he; exact hm e he
  | cons v rest ih =>
    intro m hm hvs e he
    simp only [List.foldl_cons] at he
    refine ih _ ?_ (fun w hw => hvs w (List.mem_cons_of_mem _ hw)) e he
    intro e' he'
    rcases mem_vmapSet _ _ _ _ he' with h1 | h1
    · exact hm e' h1
    · rw [h1]; exact hvs v (List.mem_cons_self _ _)

theorem buildVMap_values (vs : List VirtualHost) :
    ∀ e ∈ buildVMap vs, e.2 ∈ vs := by
  unfold buildVMap
  exact buildFold_values (· ∈ vs) vs [] (by intro e he; cases he) (fun v hv => hv)

theorem mergeFold_values_origin (ssl : List (List Char × SSLInfo)) :
    ∀ (vs : List VirtualHost) (m : VMap) (A : VirtualHost → Prop),
      (∀ e ∈ m, ∃ v, A v ∧ e.2 = { v with ssl := e.2.ssl }) →
      ∀ e ∈ vs.foldl (mergeHttpsStep ssl) m,
        ∃ v, (A v ∨ v ∈ vs) ∧ e.2 = { v with ssl := e.2.ssl } := by
  intro vs
  induction vs with
  | nil =>
    intro m A hm e he
    obtain ⟨v, hv, he2⟩ := hm e he
    exact ⟨v, Or.inl hv, he2⟩
  | cons v rest ih =>
    intro m A hm e he
    simp only [List.foldl_cons] at he
    have hm' : ∀ e ∈ mergeHttpsStep ssl m v, ∃ w, (A w ∨ w = v) ∧
        e.2 = { w with ssl := e.2.ssl } := by
      intro e' he'
      rcases mem_mergeHttpsStep ssl m v e' he' with h1 | ⟨e0, hmem, he0⟩ | h1
      · obtain ⟨w, hw, hee⟩ := hm e' h1
        exact ⟨w, Or.inl hw, hee⟩
      · obtain ⟨w, hw, hee⟩ := hm e0 hmem
        refine ⟨w, Or.inl hw, ?_⟩
        rw [he0, hee]
      · exact ⟨v, Or.inr rfl, by rw [h1]⟩
    obtain ⟨w, hw, hee⟩ := ih (mergeHttpsStep ssl m v)
      (fun x => A x ∨ x = v) hm' e he
    rcases hw with (hw | rfl) | hw
    · exact ⟨w, Or.inl hw, hee⟩
    · exact ⟨w, Or.inr (List.mem_cons_self _ _), hee⟩
    · exact ⟨w, Or.inr (List.mem_cons_of_mem _ hw), hee⟩

/-! ### Step-unfolding lemmas for the scanning loops -/

theorem nestedInteriors_none (s : List Char)
    (h : firstSplit matchNestedSpan s = Option.none) : nestedInteriors s = [] := by
  rw [nestedInteriors, h]

theorem nestedInteriors_step (s pre interior rest : List Char)
    (h : firstSplit matchNestedSpan s = some (pre, interior, rest)) :
    nestedInteriors s = interior :: nestedInteriors rest := by
  rw [nestedInteriors, h]

theorem parseDirectives_no_nested (content : List Char)
    (h : nestedInteriors content = []) :
    parseDirectives content = scanLines (splitOnChar '\n' content) := by
  rw [parseDirectives, h]
  rfl

theorem extractVHostSpans_none (s : List Char)
    (h : firstSplit matchVhostSpan s = Option.none) : extractVHostSpans s = [] := by
  rw [extractVHostSpans, h]

theorem extractVHostSpans_step (s : List Char) (pre : List Char) (sp : VSpan)
    (rest : List Char) (h : firstSplit matchVhostSpan s = some (pre, sp, rest)) :
    extractVHostSpans s = sp :: extractVHostSpans rest := by
  rw [extractVHostSpans, h]

theorem removeVhostBlocks_none (name content : List Char)
    (h : firstSplit (matchRemoveSpan name) content = Option.none) :
    removeVhostBlocks name content = content := by
  rw [removeVhostBlocks, h]

theorem removeVhostBlocks_step (name content pre rest : List Char) (u : Unit)
    (h : firstSplit (matchRemoveSpan name) content = some (pre, u, rest)) :
    removeVhostBlocks name content = pre ++ removeVhostBlocks name rest := by
  rw [removeVhostBlocks, h]

/-! ### Relationship classification over the merged set (C1) -/

def labelCount (d : List Char) : Nat := (splitOnChar '.' d).length

def lastTwoLabels (d : List Char) : List Char :=
  joinDot ((splitOnChar '.' d).drop ((splitOnChar '.' d).length - 2))

/-- The classification every record actually carries: subordinate exactly
when the name has more than two labels, with the parent set to the last two
labels — independent of any other record. -/
def classOK (v : VirtualHost) : Prop :=
  v.isSubdomain = decide (labelCount v.serverName > 2) ∧
  (labelCount v.serverName > 2 → v.parentDomain = some (lastTwoLabels v.serverName))

theorem createVirtualHost_classOK (d p : List Char) (b : ParsedVHostBlock) :
    classOK (createVirtualHost d p b) := by
  unfold classOK createVirtualHost analyzeServerName labelCount lastTwoLabels
  by_cases h : (splitOnChar '.' d).length > 2
  · simp [h]
  · simp [h]

theorem classOK_ssl (v : VirtualHost) (s : SSLInfo) (h : classOK v) :
    classOK { v with ssl := s } := h

theorem parseApacheConfig_mem_created (c? : Option (List Char)) (v : VirtualHost)
    (hv : v ∈ parseApacheConfig c?) :
    ∃ d primary b, v = createVirtualHost d primary b := by
  cases c? with
  | none => cases hv
  | some content =>
    unfold parseApacheConfig at hv
    obtain ⟨b, hb, hv2⟩ := List.mem_bind.mp hv
    rcases hd : b.domains with - | ⟨primary, rest⟩
    · rw [hd] at hv2; cases hv2
    · rw [hd] at hv2
      obtain ⟨d, hdm, hde⟩ := List.mem_map.mp hv2
      exact ⟨d, primary, b, hde.symm⟩

theorem parseApacheConfig_classOK (c? : Option (List Char)) (v : VirtualHost)
    (hv : v ∈ parseApacheConfig c?) : classOK v := by
  obtain ⟨d, p, b, rfl⟩ := parseApacheConfig_mem_created c? v hv
  exact createVirtualHost_classOK d p b

theorem getAllVirtualHosts_classOK (httpC httpsC : Option (List Char))
    (ssl : List (List Char × SSLInfo)) (r : VirtualHost)
    (hr : r ∈ getAllVirtualHosts httpC httpsC ssl) : classOK r := by
  rw [getAllVirtualHosts_eq] at hr
  obtain ⟨e, hmem, hval⟩ := List.mem_map.mp hr
  have horigin := mergeFold_values_origin ssl (parseApacheConfig httpsC)
    (buildVMap (parseApacheConfig httpC)) (· ∈ parseApacheConfig httpC)
    (by
      intro e0 he0
      exact ⟨e0.2, buildVMap_values _ e0 he0, rfl⟩)
    e hmem
  obtain ⟨v, hv, hev⟩ := horigin
  have hcv : classOK v := by
    rcases hv with hv | hv
    · exact parseApacheConfig_classOK httpC v hv
    · exact parseApacheConfig_classOK httpsC v hv
  rw [← hval, hev]
  exact classOK_ssl v e.2.ssl hcv

/-! ### Concrete inputs for the classification claims -/

/-- An HTTP configuration whose only record has four labels and no two-label
parent record anywhere in the resolved set. -/
def cexHttp1 : List Char :=
  "<VirtualHost *:80>\nServerName a.b.example.org\n</VirtualHost>".data

def cex1Interior : List Char := "\nServerName a.b.example.org\n".data

def cex1Name : List Char := "a.b.example.org".data

def cex1Vhost : VirtualHost :=
  { serverName := cex1Name
    type := .static
    port := Option.none
    documentRoot := Option.none
    errorLog := Option.none
    accessLog := Option.none
    isSubdomain := true
    parentDomain := some ("example.org".data)
    ssl := ⟨false, Option.none, Option.none, .none⟩
    rawConfig := cexHttp1 }

theorem cex1_eval :
    getAllVirtualHosts (some cexHttp1) Option.none [] = [cex1Vhost] := by
  have h1 : firstSplit matchVhostSpan cexHttp1 =
      some ([], ⟨" *:80".data, cex1Interior, cexHttp1⟩, []) := by decide
  have h2 : extractVHostSpans cexHttp1 = [⟨" *:80".data, cex1Interior, cexHttp1⟩] := by
    rw [extractVHostSpans_step _ _ _ _ h1, extractVHostSpans_none [] (by decide)]
  have h4 : parseDirectives cex1Interior =
      scanLines (splitOnChar '\n' cex1Interior) :=
    parseDirectives_no_nested _ (nestedInteriors_none _ (by decide))
  rw [getAllVirtualHosts_eq]
  show ((parseApacheConfig Option.none).foldl (mergeHttpsStep [])
    (buildVMap (parseApacheConfig (some cexHttp1)))).map (·.2) = [cex1Vhost]
  unfold parseApacheConfig extractVirtualHostBlocks
  dsimp only
  rw [h2]
  dsimp only [List.map_cons, List.map_nil]
  rw [h4]
  decide

/-- C1 counterexample: the resolved set built from one HTTP file whose only
record is the four-label `a.b.example.org` contains no `example.org`
record, yet that record is classified subordinate (`isSubdomain = true`,
with a `parentDomain`), where the claim requires a principal record. -/
theorem c1_counterexample :
    (getAllVirtualHosts (some cexHttp1) Option.none []).map (·.serverName) = [cex1Name] ∧
    ("example.org".data ∉
      (getAllVirtualHosts (some cexHttp1) Option.none []).map (·.serverName)) ∧
    labelCount cex1Name > 2 ∧
    cex1Vhost ∈ getAllVirtualHosts (some cexHttp1) Option.none [] ∧
    cex1Vhost.isSubdomain = true ∧
    cex1Vhost.parentDomain = some ("example.org".data) := by
  rw [cex1_eval]
  refine ⟨rfl, ?_, by decide, List.mem_cons_self _ _, rfl, rfl⟩
  decide

/-- C1 (amended): in every resolved Site Record set produced by the read
path, a record's `isSubdomain` flag is true iff its own domain name has more
than two dot-separated labels — the presence of the two-label parent in the
set is never consulted — and every such record's `parentDomain` is the last
two labels of its name. -/
theorem c1_label_count_classification :
    ∀ (httpC httpsC : Option (List Char)) (ssl : List (List Char × SSLInfo))
      (r : VirtualHost), r ∈ getAllVirtualHosts httpC httpsC ssl →
      r.isSubdomain = decide (labelCount r.serverName > 2) ∧
      (labelCount r.serverName > 2 →
        r.parentDomain = some (lastTwoLabels r.serverName)) :=
  fun httpC httpsC ssl r hr => getAllVirtualHosts_classOK httpC httpsC ssl r hr

/-- C1 witness: the amended classification evaluated on the concrete
four-label record. -/
theorem c1_label_count_classification_witness :
    cex1Vhost.isSubdomain = decide (labelCount cex1Vhost.serverName > 2) ∧
    (labelCount cex1Vhost.serverName > 2 →
      cex1Vhost.parentDomain = some (lastTwoLabels cex1Vhost.serverName)) :=
  c1_label_count_classification (some cexHttp1) Option.none [] cex1Vhost
    (by rw [cex1_eval]; exact List.mem_cons_self _ _)

/-! ### Concrete inputs for the merge claims -/

def shopName : List Char := "shop.example.com".data

/-- A TLS-file block for `shop.example.com` with no certificate directives. -/
def cexHttpsShop : List Char :=
  "<VirtualHost *:443>\nServerName shop.example.com\n</VirtualHost>".data

def cexHttpsShopInterior : List Char := "\nServerName shop.example.com\n".data

/-- An HTTP-file block for the same domain with a content root. -/
def cexHttpShop : List Char :=
  "<VirtualHost *:80>\nServerName shop.example.com\nDocumentRoot /var/www/shop\n</VirtualHost>".data

def cexHttpShopInterior : List Char :=
  "\nServerName shop.example.com\nDocumentRoot /var/www/shop\n".data

def shopHttpsVhost : VirtualHost :=
  { serverName := shopName
    type := .static
    port := Option.none
    documentRoot := Option.none
    errorLog := Option.none
    accessLog := Option.none
    isSubdomain := true
    parentDomain := some ("example.com".data)
    ssl := ⟨false, Option.none, Option.none, .none⟩
    rawConfig := cexHttpsShop }

def shopHttpVhost : VirtualHost :=
  { serverName := shopName
    type := .static
    port := Option.none
    documentRoot := some ("/var/www/shop".data)
    errorLog := Option.none
    accessLog := Option.none
    isSubdomain := true
    parentDomain := some ("example.com".data)
    ssl := ⟨false, Option.none, Option.none, .none⟩
    rawConfig := cexHttpShop }

theorem parse_eval_shopHttps :
    parseApacheConfig (some cexHttpsShop) = [shopHttpsVhost] := by
  have h1 : firstSplit matchVhostSpan cexHttpsShop =
      some ([], ⟨" *:443".data, cexHttpsShopInterior, cexHttpsShop⟩, []) := by decide
  have h2 : extractVHostSpans cexHttpsShop =
      [⟨" *:443".data, cexHttpsShopInterior, cexHttpsShop⟩] := by
    rw [extractVHostSpans_step _ _ _ _ h1, extractVHostSpans_none [] (by decide)]
  have h4 : parseDirectives cexHttpsShopInterior =
      scanLines (splitOnChar '\n' cexHttpsShopInterior) :=
    parseDirectives_no_nested _ (nestedInteriors_none _ (by decide))
  unfold parseApacheConfig extractVirtualHostBlocks
  dsimp only
  rw [h2]
  dsimp only [List.map_cons, List.map_nil]
  rw [h4]
  decide

theorem parse_eval_shopHttp :
    parseApacheConfig (some cexHttpShop) = [shopHttpVhost] := by
  have h1 : firstSplit matchVhostSpan cexHttpShop =
      some ([], ⟨" *:80".data, cexHttpShopInterior, cexHttpShop⟩, []) := by decide
  have h2 : extractVHostSpans cexHttpShop =
      [⟨" *:80".data, cexHttpShopInterior, cexHttpShop⟩] := by
    rw [extractVHostSpans_step _ _ _ _ h1, extractVHostSpans_none [] (by decide)]
  have h4 : parseDirectives cexHttpShopInterior =
      scanLines (splitOnChar '\n' cexHttpShopInterior) :=
    parseDirectives_no_nested _ (nestedInteriors_none _ (by decide))
  unfold parseApacheConfig extractVirtualHostBlocks
  dsimp only
  rw [h2]
  dsimp only [List.map_cons, List.map_nil]
  rw [h4]
  decide

theorem cex6_eval :
    getAllVirtualHosts Option.none (some cexHttpsShop) [] =
      [{ shopHttpsVhost with ssl := defaultHttpsSSL }] := by
  rw [getAllVirtualHosts_eq, parse_eval_shopHttps]
  decide

theorem cex10_eval :
    getAllVirtualHosts (some cexHttpShop) (some cexHttpsShop) [] =
      [{ shopHttpVhost with ssl := defaultHttpsSSL }] := by
  rw [getAllVirtualHosts_eq, parse_eval_shopHttps, parse_eval_shopHttp]
  decide

/-- C6 counterexample: a record whose only occurrence is in the
TLS-provisioned file and which has no certificate-metadata entry is merged
with `ssl = { enabled := true, status := active }`, not `status = none`. -/
theorem c6_counterexample :
    sslLookup [] shopName = Option.none ∧
    { shopHttpsVhost with ssl := defaultHttpsSSL } ∈
      getAllVirtualHosts Option.none (some cexHttpsShop) [] ∧
    ({ shopHttpsVhost with ssl := defaultHttpsSSL } : VirtualHost).ssl.status =
      SSLStatus.active ∧
    SSLStatus.active ≠ SSLStatus.none := by
  rw [cex6_eval]
  exact ⟨rfl, List.mem_cons_self _ _, rfl, by decide⟩

/-- C6 (amended): a merged record with no certificate-metadata entry keeps
its block-derived `ssl` only when its domain does not occur in the TLS file
(it is then the untouched HTTP-file record, whose `ssl.status` is `none`
unless its own block enables SSL); a record whose domain occurs in the TLS
file instead defaults to `{ enabled := true, status := active }`. -/
theorem c6_missing_metadata_default :
    ∀ (httpC httpsC : Option (List Char)) (ssl : List (List Char × SSLInfo))
      (r : VirtualHost), r ∈ getAllVirtualHosts httpC httpsC ssl →
      sslLookup ssl r.serverName = Option.none →
      (r.serverName ∈ (parseApacheConfig httpsC).map (·.serverName) →
        r.ssl = defaultHttpsSSL) ∧
      (r.serverName ∉ (parseApacheConfig httpsC).map (·.serverName) →
        r ∈ parseApacheConfig httpC) := by
  intro httpC httpsC ssl r hr hssl
  rw [getAllVirtualHosts_eq] at hr
  obtain ⟨e, hmem, hval⟩ := List.mem_map.mp hr
  have hnamed : entriesNamed ((parseApacheConfig httpsC).foldl (mergeHttpsStep ssl)
      (buildVMap (parseApacheConfig httpC))) :=
    entriesNamed_mergeFold ssl _ _ (entriesNamed_buildVMap _)
  have hnd : (((parseApacheConfig httpsC).foldl (mergeHttpsStep ssl)
      (buildVMap (parseApacheConfig httpC))).map (·.1)).Nodup :=
    keys_nodup_mergeFold ssl _ _ (keys_nodup_buildVMap _)
  have hlook := vmapLookup_of_mem_value _ r hnd hnamed e hmem hval
  constructor
  · intro hin
    have hm := mergeFold_lookup_mem ssl (parseApacheConfig httpsC)
      (buildVMap (parseApacheConfig httpC)) r.serverName hin
    rcases hl0 : vmapLookup (buildVMap (parseApacheConfig httpC)) r.serverName with - | h0
    · obtain ⟨b, -, -, hbl⟩ := hm.2 hl0
      rw [hlook] at hbl
      have heq : r = { b with ssl := (sslLookup ssl r.serverName).getD defaultHttpsSSL } := by
        injection hbl with h3
      rw [heq, hssl]
      rfl
    · have hbl := hm.1 h0 hl0
      rw [hlook] at hbl
      have heq : r = { h0 with ssl := (sslLookup ssl r.serverName).getD defaultHttpsSSL } := by
        injection hbl with h3
      rw [heq, hssl]
      rfl
  · intro hnotin
    have hm := mergeFold_lookup_notmem ssl (parseApacheConfig httpsC)
      (buildVMap (parseApacheConfig httpC)) r.serverName hnotin
    rw [hlook] at hm
    have hmem1 := vmapLookup_mem _ _ _ hm.symm
    exact buildVMap_values _ _ hmem1

/-- C6 witness: the amended default evaluated on the TLS-only record. -/
theorem c6_missing_metadata_default_witness :
    (shopName ∈ (parseApacheConfig (some cexHttpsShop)).map (·.serverName) →
      ({ shopHttpsVhost with ssl := defaultHttpsSSL } : VirtualHost).ssl =
        defaultHttpsSSL) ∧
    (shopName ∉ (parseApacheConfig (some cexHttpsShop)).map (·.serverName) →
      { shopHttpsVhost with ssl := defaultHttpsSSL } ∈
        parseApacheConfig Option.none) :=
  c6_missing_metadata_default Option.none (some cexHttpsShop) []
    { shopHttpsVhost with ssl := defaultHttpsSSL }
    (by rw [cex6_eval]; exact List.mem_cons_self _ _) rfl

theorem buildFold_lookup_notmem :
    ∀ (vs : List VirtualHost) (m : VMap) (d : List Char),
      d ∉ vs.map (·.serverName) →
      vmapLookup (vs.foldl (fun m v => vmapSet m v.serverName v) m) d =
        vmapLookup m d := by
  intro vs
  induction vs with
  | nil => intro m d _; rfl
  | cons v rest ih =>
    intro m d hd
    rw [List.map_cons] at hd
    have h1 : d ≠ v.serverName := fun hc => hd (hc ▸ List.mem_cons_self _ _)
    have h2 : d ∉ rest.map (·.serverName) := fun hc => hd (List.mem_cons_of_mem _ hc)
    simp only [List.foldl_cons]
    rw [ih _ d h2, vmapLookup_set_other m v.serverName d v h1]

theorem buildFold_lookup_mem :
    ∀ (vs : List VirtualHost) (m : VMap) (d : List Char),
      d ∈ vs.map (·.serverName) →
      vmapLookup (vs.foldl (fun m v => vmapSet m v.serverName v) m) d ≠
        Option.none := by
  intro vs
  induction vs with
  | nil => intro m d hd; cases hd
  | cons v rest ih =>
    intro m d hd
    simp only [List.foldl_cons]
    by_cases hr : d ∈ rest.map (·.serverName)
    · exact ih _ d hr
    · have hv : v.serverName = d := by
        rw [List.map_cons] at hd
        rcases List.mem_cons.mp hd with hc | hc
        · exact hc.symm
        · exact absurd hc hr
      rw [buildFold_lookup_notmem rest _ d hr, hv, vmapLookup_set_self]
      intro hc
      cases hc

/-- C10: the merged list has at most one record per domain name, and a
domain present in both files keeps the HTTP file's record — every field
taken from the HTTP block — with only its `ssl` field replaced (by the
certificate metadata, or the active default). -/
theorem c10_merge_http_precedence :
    ∀ (httpC httpsC : Option (List Char)) (ssl : List (List Char × SSLInfo)),
      ((getAllVirtualHosts httpC httpsC ssl).map (·.serverName)).Nodup ∧
      (∀ d, d ∈ (parseApacheConfig httpC).map (·.serverName) →
        d ∈ (parseApacheConfig httpsC).map (·.serverName) →
        ∃ r0, r0 ∈ parseApacheConfig httpC ∧ r0.serverName = d ∧
          { r0 with ssl := (sslLookup ssl d).getD defaultHttpsSSL } ∈
            getAllVirtualHosts httpC httpsC ssl) := by
  intro httpC httpsC ssl
  have hnamed : entriesNamed ((parseApacheConfig httpsC).foldl (mergeHttpsStep ssl)
      (buildVMap (parseApacheConfig httpC))) :=
    entriesNamed_mergeFold ssl _ _ (entriesNamed_buildVMap _)
  have hnd : (((parseApacheConfig httpsC).foldl (mergeHttpsStep ssl)
      (buildVMap (parseApacheConfig httpC))).map (·.1)).Nodup :=
    keys_nodup_mergeFold ssl _ _ (keys_nodup_buildVMap _)
  constructor
  · rw [getAllVirtualHosts_eq, List.map_map]
    have : ((fun v : VirtualHost => v.serverName) ∘ (fun e : List Char × VirtualHost => e.2)) =
        fun e : List Char × VirtualHost => e.2.serverName := rfl
    rw [this]
    have hcongr : (((parseApacheConfig httpsC).foldl (mergeHttpsStep ssl)
        (buildVMap (parseApacheConfig httpC))).map (fun e => e.2.serverName)) =
        (((parseApacheConfig httpsC).foldl (mergeHttpsStep ssl)
        (buildVMap (parseApacheConfig httpC))).map (fun e => e.1)) :=
      List.map_congr_left (fun e he => hnamed e he)
    rw [hcongr]
    exact hnd
  · intro d hdh hds
    rcases hl0 : vmapLookup (buildVMap (parseApacheConfig httpC)) d with - | r0
    · exact absurd hl0 (buildFold_lookup_mem _ [] d hdh)
    · have hmem0 := vmapLookup_mem _ _ _ hl0
      have hr0p : r0 ∈ parseApacheConfig httpC := buildVMap_values _ _ hmem0
      have hr0n : r0.serverName = d := entriesNamed_buildVMap _ (d, r0) hmem0
      refine ⟨r0, hr0p, hr0n, ?_⟩
      have hfin := (mergeFold_lookup_mem ssl (parseApacheConfig httpsC)
        (buildVMap (parseApacheConfig httpC)) d hds).1 r0 hl0
      have hmemf := vmapLookup_mem _ _ _ hfin
      rw [getAllVirtualHosts_eq]
      exact List.mem_map.mpr ⟨_, hmemf, rfl⟩

/-- C10 witness: the precedence conclusion evaluated on a domain present in
both concrete files. -/
theorem c10_merge_http_precedence_witness :
    ∃ r0, r0 ∈ parseApacheConfig (some cexHttpShop) ∧ r0.serverName = shopName ∧
      { r0 with ssl := (sslLookup [] shopName).getD defaultHttpsSSL } ∈
        getAllVirtualHosts (some cexHttpShop) (some cexHttpsShop) [] :=
  (c10_merge_http_precedence (some cexHttpShop) (some cexHttpsShop) []).2 shopName
    (by rw [parse_eval_shopHttp]; decide)
    (by rw [parse_eval_shopHttps]; decide)

/-- C7: the certificate-metadata loader returns the empty mapping for an
absent renewal directory, and every produced entry carries
`daysRemaining = floor((expiry - now) / 1 day)` with status `expired` when
negative, `expiring` up to 7 days, `active` otherwise. -/
theorem c7_ssl_status_thresholds :
    (∀ (dateParse : List Char → Int) (now : Int),
      loadSSLInfo dateParse Option.none now = []) ∧
    (∀ (dateParse : List Char → Int) (files : List (List Char × List Char))
      (now : Int) (d : List Char) (info : SSLInfo),
      (d, info) ∈ loadSSLInfo dateParse (some files) now →
      ∃ E : Int, info.enabled = true ∧ info.expiresAt = some E ∧
        info.daysUntilExpiry = some (Int.fdiv (E - now) (1000 * 60 * 60 * 24)) ∧
        info.status =
          (if Int.fdiv (E - now) (1000 * 60 * 60 * 24) < 0 then SSLStatus.expired
           else if Int.fdiv (E - now) (1000 * 60 * 60 * 24) ≤ 7 then SSLStatus.expiring
           else SSLStatus.active)) := by
  constructor
  · intro _ _; rfl
  · intro dateParse files now d info hmem
    unfold loadSSLInfo at hmem
    suffices hgen : ∀ (l : List (List Char × List Char))
        (acc : List (List Char × SSLInfo)),
        (∀ x ∈ acc, ∃ E : Int, x.2.enabled = true ∧ x.2.expiresAt = some E ∧
          x.2.daysUntilExpiry = some (Int.fdiv (E - now) (1000 * 60 * 60 * 24)) ∧
          x.2.status =
            (if Int.fdiv (E - now) (1000 * 60 * 60 * 24) < 0 then SSLStatus.expired
             else if Int.fdiv (E - now) (1000 * 60 * 60 * 24) ≤ 7 then SSLStatus.expiring
             else SSLStatus.active)) →
        ∀ x ∈ l.foldl (fun acc e =>
          match extractExpiryRaw e.2 with
          | Option.none => acc
          | some raw =>
            acc ++ [(replaceFirstStr sDotConf [] e.1,
              ⟨true, some (dateParse (trim raw)),
               some (Int.fdiv (dateParse (trim raw) - now) (1000 * 60 * 60 * 24)),
               sslStatusOfDays (Int.fdiv (dateParse (trim raw) - now) (1000 * 60 * 60 * 24))⟩)]) acc,
          ∃ E : Int, x.2.enabled = true ∧ x.2.expiresAt = some E ∧
            x.2.daysUntilExpiry = some (Int.fdiv (E - now) (1000 * 60 * 60 * 24)) ∧
            x.2.status =
              (if Int.fdiv (E - now) (1000 * 60 * 60 * 24) < 0 then SSLStatus.expired
               else if Int.fdiv (E - now) (1000 * 60 * 60 * 24) ≤ 7 then SSLStatus.expiring
               else SSLStatus.active) by
      exact hgen _ [] (by intro x hx; cases hx) (d, info) hmem
    intro l
    induction l with
    | nil => intro acc hacc x hx; exact hacc x hx
    | cons e rest ih =>
      intro acc hacc x hx
      simp only [List.foldl_cons] at hx
      refine ih _ ?_ x hx
      intro y hy
      rcases hraw : extractExpiryRaw e.2 with - | raw
      · rw [hraw] at hy
        exact hacc y hy
      · rw [hraw] at hy
        rcases List.mem_append.mp hy with h1 | h1
        · exact hacc y h1
        · rcases List.mem_singleton.mp h1 with rfl
          exact ⟨dateParse (trim raw), rfl, rfl, rfl, rfl⟩

/-- C7 witness: the loader evaluated on a one-file directory. -/
theorem c7_ssl_status_thresholds_witness :
    ∃ E : Int,
      (⟨true, some 1000000, some 0, SSLStatus.expiring⟩ : SSLInfo).enabled = true ∧
      (⟨true, some 1000000, some 0, SSLStatus.expiring⟩ : SSLInfo).expiresAt = some E ∧
      (⟨true, some 1000000, some 0, SSLStatus.expiring⟩ : SSLInfo).daysUntilExpiry =
        some (Int.fdiv (E - 0) (1000 * 60 * 60 * 24)) ∧
      (⟨true, some 1000000, some 0, SSLStatus.expiring⟩ : SSLInfo).status =
        (if Int.fdiv (E - 0) (1000 * 60 * 60 * 24) < 0 then SSLStatus.expired
         else if Int.fdiv (E - 0) (1000 * 60 * 60 * 24) ≤ 7 then SSLStatus.expiring
         else SSLStatus.active) :=
  c7_ssl_status_thresholds.2 (fun _ => 1000000)
    [("a.conf".data, "expiry_date = 2026-01-01".data)] 0 ("a".data)
    ⟨true, some 1000000, some 0, SSLStatus.expiring⟩ (by decide)

/-! ### Concrete inputs for the mutation-engine claims -/

def c2Cur : List Char := "# existing config".data

def c2Blk : List Char := generateNodeVirtualHost ("app.example.com".data) 3000

/-- A syntax check that genuinely fails: non-zero exit, no OK marker. -/
def cexBadCheckEnv : AddEnv :=
  ⟨true, ⟨false, "Syntax error on line 3 of vhost.conf".data, []⟩, true, true⟩

/-- A syntax check that exits non-zero yet prints the OK marker. -/
def cexWarnCheckEnv : AddEnv :=
  ⟨true, ⟨false, "Syntax OK".data, []⟩, true, true⟩

def c3Content : List Char :=
  "<VirtualHost *:80>\nServerName a.com\n</VirtualHost>".data

/-- All external steps succeed and the check prints the OK marker. -/
def cexOkReplaceEnv : ReplaceEnv :=
  ⟨true, true, ⟨true, "Syntax OK".data, []⟩, true⟩

/-- A replace-side check with no OK marker in its combined output. -/
def cexBadReplaceEnv : ReplaceEnv :=
  ⟨true, true, ⟨false, "Syntax error on line 3 of vhost.conf".data, []⟩, true⟩

/-- C2 counterexample: when the syntax check fails after `addDomain`'s
write, the target file keeps the newly appended content — it is not
restored to its previous content — so the rollback claim fails for the add
operation. -/
theorem c2_counterexample :
    (addDomain cexBadCheckEnv (some c2Cur) c2Blk).error = some MutError.syntaxCmdFail ∧
    (addDomain cexBadCheckEnv (some c2Cur) c2Blk).target ≠ some c2Cur ∧
    (addDomain cexBadCheckEnv (some c2Cur) c2Blk).target = some (c2Cur ++ '\n' :: c2Blk) ∧
    (addDomain cexBadCheckEnv (some c2Cur) c2Blk).reloads = 0 := by
  refine ⟨rfl, ?_, rfl, rfl⟩
  decide

/-- C2 (amended): only the replace-whole-file operation restores the target
from its backup when the syntax check fails — the file's content then equals
its previous content, an error is raised, and no reload is issued — while
`addDomain` takes no backup: on a failed syntax check it raises an error and
issues no reload, but the target keeps the newly written content. -/
theorem c2_rollback_only_for_replace :
    (∀ (env : ReplaceEnv) (c content : List Char),
      env.backupCpOk = true → env.commitCpOk = true →
      containsSub sOpenTagLit content = true →
      containsSub sCloseTagLit content = true →
      containsSub okMarker (combinedOutput env.configtest) = false →
      replaceConfigFile env (some c) content =
        ⟨some c, 2, 1, 0, some MutError.validationFail⟩) ∧
    (∀ (env : AddEnv) (c blk : List Char),
      env.writeCpOk = true → env.configtest.exitOk = false →
      addDomain env (some c) blk =
        ⟨some (c ++ '\n' :: blk), 1, 1, 0, some MutError.syntaxCmdFail⟩) := by
  constructor
  · intro env c content h1 h2 h3 h4 h5
    unfold replaceConfigFile
    simp [h1, h2, h3, h4, h5]
  · intro env c blk h1 h2
    unfold addDomain
    simp [h1, h2]

/-- C2 witness: both halves evaluated on concrete environments. -/
theorem c2_rollback_only_for_replace_witness :
    replaceConfigFile cexBadReplaceEnv (some c2Cur) c3Content =
      ⟨some c2Cur, 2, 1, 0, some MutError.validationFail⟩ ∧
    addDomain cexBadCheckEnv (some c2Cur) c2Blk =
      ⟨some (c2Cur ++ '\n' :: c2Blk), 1, 1, 0, some MutError.syntaxCmdFail⟩ :=
  ⟨c2_rollback_only_for_replace.1 cexBadReplaceEnv c2Cur c3Content rfl rfl
      (by decide) (by decide) (by decide),
    c2_rollback_only_for_replace.2 cexBadCheckEnv c2Cur c2Blk rfl rfl⟩

/-- C3 counterexample: uploading content byte-identical to the current file
still writes the target once, runs one syntax check and one reload — there
is no idempotent no-op path. -/
theorem c3_counterexample :
    replaceConfigFile cexOkReplaceEnv (some c3Content) c3Content =
      ⟨some c3Content, 1, 1, 1, Option.none⟩ ∧
    (replaceConfigFile cexOkReplaceEnv (some c3Content) c3Content).targetWrites ≠ 0 ∧
    (replaceConfigFile cexOkReplaceEnv (some c3Content) c3Content).syntaxChecks ≠ 0 ∧
    (replaceConfigFile cexOkReplaceEnv (some c3Content) c3Content).reloads ≠ 0 := by
  refine ⟨by decide, ?_, ?_, ?_⟩ <;> decide

/-- C3 (amended): the replace-whole-file operation has no idempotency
short-circuit: whenever the upload passes the tag check and the external
steps succeed, it writes the target, runs the syntax check and reloads —
also when the uploaded content is byte-identical to the current content. -/
theorem c3_no_idempotent_shortcut :
    ∀ (env : ReplaceEnv) (content : List Char),
      env.backupCpOk = true → env.commitCpOk = true →
      containsSub sOpenTagLit content = true →
      containsSub sCloseTagLit content = true →
      containsSub okMarker (combinedOutput env.configtest) = true →
      env.reloadOk = true →
      replaceConfigFile env (some content) content =
        ⟨some content, 1, 1, 1, Option.none⟩ := by
  intro env content h1 h2 h3 h4 h5 h6
  unfold replaceConfigFile
  simp [h1, h2, h3, h4, h5, h6]

/-- C3 witness: the no-shortcut behaviour on a concrete identical upload. -/
theorem c3_no_idempotent_shortcut_witness :
    replaceConfigFile cexOkReplaceEnv (some c3Content) c3Content =
      ⟨some c3Content, 1, 1, 1, Option.none⟩ :=
  c3_no_idempotent_shortcut cexOkReplaceEnv c3Content rfl rfl
    (by decide) (by decide) (by decide) rfl

/-- C5 counterexample: a syntax check whose combined output contains
`Syntax OK` but whose process exits non-zero makes `addDomain` fail — the
marker does not determine success for the add operation. -/
theorem c5_counterexample :
    containsSub okMarker (combinedOutput cexWarnCheckEnv.configtest) = true ∧
    (addDomain cexWarnCheckEnv (some c2Cur) c2Blk).error =
      some MutError.syntaxCmdFail := by
  exact ⟨by decide, rfl⟩

/-- C5 (amended): in the replace-whole-file operation the syntax-check
verdict is determined solely by the `Syntax OK` marker in the combined
stdout+stderr — the outcome is invariant under the process exit code — while
`addDomain` treats the syntax check as successful iff the process exits
zero, never consulting the marker. -/
theorem c5_marker_vs_exitcode :
    (∀ (bk cp : Bool) (so se : List Char) (e1 e2 : Bool) (rl : Bool)
      (cur : Option (List Char)) (cnt : List Char),
      replaceConfigFile ⟨bk, cp, ⟨e1, so, se⟩, rl⟩ cur cnt =
        replaceConfigFile ⟨bk, cp, ⟨e2, so, se⟩, rl⟩ cur cnt) ∧
    (∀ (env : ReplaceEnv) (cur : Option (List Char)) (cnt : List Char),
      env.backupCpOk = true → env.commitCpOk = true →
      containsSub sOpenTagLit cnt = true → containsSub sCloseTagLit cnt = true →
      (((replaceConfigFile env cur cnt).error = some MutError.validationFail) ↔
        containsSub okMarker (combinedOutput env.configtest) = false)) ∧
    (∀ (env : AddEnv) (c blk : List Char), env.writeCpOk = true →
      (((addDomain env (some c) blk).error = some MutError.syntaxCmdFail) ↔
        env.configtest.exitOk = false)) := by
  refine ⟨fun bk cp so se e1 e2 rl cur cnt => rfl, ?_, ?_⟩
  · intro env cur cnt h1 h2 h3 h4
    rcases cur with - | c <;>
      cases hm : containsSub okMarker (combinedOutput env.configtest) <;>
      cases hrl : env.reloadOk <;>
      simp [replaceConfigFile, h1, h2, h3, h4, hm, hrl]
  · intro env c blk h1
    cases he : env.configtest.exitOk <;>
      cases hrl : env.reloadOk <;>
      cases hcb : env.certbotOk <;>
      simp [addDomain, h1, he, hrl, hcb]

/-- C5 witness: the marker-versus-exit-code split evaluated concretely. -/
theorem c5_marker_vs_exitcode_witness :
    ((replaceConfigFile cexBadReplaceEnv (some c2Cur) c3Content).error =
      some MutError.validationFail ↔
      containsSub okMarker (combinedOutput cexBadReplaceEnv.configtest) = false) ∧
    ((addDomain cexWarnCheckEnv (some c2Cur) c2Blk).error =
      some MutError.syntaxCmdFail ↔
      cexWarnCheckEnv.configtest.exitOk = false) :=
  ⟨c5_marker_vs_exitcode.2.1 cexBadReplaceEnv (some c2Cur) c3Content rfl rfl
      (by decide) (by decide),
    c5_marker_vs_exitcode.2.2 cexWarnCheckEnv c2Cur c2Blk rfl⟩

/-! ### Concrete inputs for the removal claim -/

def c4BlockA : List Char :=
  "<VirtualHost>\nServerName a.com\n</VirtualHost>\n".data

def c4BlockB : List Char :=
  "<VirtualHost>\nServerName b.com\n</VirtualHost>".data

def c4Target : List Char := "b.com".data

/-- C4: removing `b.com` from a file whose first block declares only
`a.com` deletes *both* blocks — the removal regex's match starts at the
unrelated preceding block's opening tag and extends through the target
block's closing tag — while the `a.com` block alone is left untouched and
the `b.com` block alone is removed exactly. -/
theorem c4_adjacent_block_swallowed :
    removeVhostBlocks c4Target (c4BlockA ++ c4BlockB) = [] ∧
    removeVhostBlocks c4Target c4BlockA = c4BlockA ∧
    removeVhostBlocks c4Target c4BlockB = [] := by
  refine ⟨?_, ?_, ?_⟩
  · have h1 : firstSplit (matchRemoveSpan c4Target) (c4BlockA ++ c4BlockB) =
        some ([], (), []) := by decide
    rw [removeVhostBlocks_step _ _ _ _ _ h1,
      removeVhostBlocks_none _ [] (by decide)]
    rfl
  · exact removeVhostBlocks_none _ _ (by decide)
  · have h1 : firstSplit (matchRemoveSpan c4Target) c4BlockB =
        some ([], (), []) := by decide
    rw [removeVhostBlocks_step _ _ _ _ _ h1,
      removeVhostBlocks_none _ [] (by decide)]
    rfl

/-! ### Support lemmas for the tokenizer claims -/

theorem endsWithChar_concat (xs : List Char) (c : Char) :
    endsWithChar (xs ++ [c]) c = true := by
  unfold endsWithChar
  rw [List.getLast?_concat]
  simp

theorem splitOnChar_not_mem (sep : Char) (l : List Char) (h : sep ∉ l) :
    splitOnChar sep l = [l] := by
  induction l with
  | nil => rfl
  | cons c cs ih =>
    have hc : ¬ (c = sep) := fun hc => h (hc ▸ List.mem_cons_self _ _)
    have hcs : sep ∉ cs := fun hm => h (List.mem_cons_of_mem _ hm)
    unfold splitOnChar
    rw [if_neg hc, ih hcs]

theorem splitOnChar_cons (sep c : Char) (cs : List Char) :
    splitOnChar sep (c :: cs) =
      if c = sep then [] :: splitOnChar sep cs
      else match splitOnChar sep cs with
           | [] => [[c]]
           | p :: ps => (c :: p) :: ps := rfl

theorem splitOnChar_append (sep : Char) (xs rest : List Char) (h : sep ∉ xs) :
    splitOnChar sep (xs ++ sep :: rest) = xs :: splitOnChar sep rest := by
  induction xs with
  | nil =>
    simp only [List.nil_append]
    rw [splitOnChar_cons, if_pos rfl]
  | cons c cs ih =>
    have hc : ¬ (c = sep) := fun hc => h (hc ▸ List.mem_cons_self _ _)
    have hcs : sep ∉ cs := fun hm => h (List.mem_cons_of_mem _ hm)
    simp only [List.cons_append]
    rw [splitOnChar_cons, if_neg hc, ih hcs]

theorem firstSplit_none_no_head {α : Type}
    (m : List Char → Option (α × List Char)) (hm0 : m [] = Option.none)
    (hm : ∀ c t, c ≠ '<' → m (c :: t) = Option.none) :
    ∀ s, (∀ c ∈ s, c ≠ '<') → firstSplit m s = Option.none := by
  intro s
  induction s with
  | nil => intro _; simp [firstSplit, hm0]
  | cons c cs ih =>
    intro hs
    simp only [firstSplit]
    rw [hm c cs (hs c (List.mem_cons_self _ _))]
    rw [ih (fun x hx => hs x (List.mem_cons_of_mem _ hx))]
    rfl

theorem expectChar_cons_ne (c d : Char) (t : List Char) (h : d ≠ c) :
    expectChar c (d :: t) = Option.none := by
  show (if d = c then some t else Option.none) = Option.none
  rw [if_neg h]

theorem matchNestedSpan_ne_head (c : Char) (t : List Char) (h : c ≠ '<') :
    matchNestedSpan (c :: t) = Option.none := by
  unfold matchNestedSpan
  rw [expectChar_cons_ne _ _ _ h]

theorem matchVhostSpan_ne_head (c : Char) (t : List Char) (h : c ≠ '<') :
    matchVhostSpan (c :: t) = Option.none := by
  unfold matchVhostSpan matchVhostOpen
  rw [expectChar_cons_ne _ _ _ h]

theorem matchVhostClose_ne_head (c : Char) (t : List Char) (h : c ≠ '<') :
    matchVhostClose (c :: t) = Option.none := by
  unfold matchVhostClose
  rw [expectChar_cons_ne _ _ _ h]

def c8Input : List Char := "ProxyPass a \\\nsecond part \\\nthird".data

/-- C8 counterexample: a continued line that itself parses as a directive
start (`second part \`) terminates the accumulation: the tokenizer commits
`proxypass = "a"` and opens new directives `second` and `third` instead of
producing one directive with the three fragments joined. -/
theorem c8_counterexample :
    dmLookup (parseDirectives c8Input) ("proxypass".data) = some ["a".data] ∧
    dmLookup (parseDirectives c8Input) ("second".data) = some ["part".data] ∧
    dmLookup (parseDirectives c8Input) ("third".data) = some [[]] ∧
    (parseDirectives c8Input).length = 3 := by
  rw [parseDirectives_no_nested c8Input (nestedInteriors_none _ (by decide))]
  refine ⟨?_, ?_, ?_, ?_⟩ <;> decide

/-- C8 (amended): a directive line ending in the continuation marker
followed by two further continued lines tokenizes into one directive whose
value joins the three fragments with single spaces, provided no continued
line itself parses as a directive start (a line matching the
directive-start pattern instead commits the pending directive and opens a
new one). -/
theorem c8_continuation_non_directive
    (n v1 f2 f3 : List Char)
    (hline1 : trim ((n ++ ' ' :: (v1 ++ [' ', '\\'])).takeWhile (fun c => c != '#'))
      = n ++ ' ' :: (v1 ++ [' ', '\\']))
    (hdm1 : directiveMatch? (n ++ ' ' :: (v1 ++ [' ', '\\']))
      = some (n, v1 ++ [' ', '\\']))
    (hsp1 : startsSpecial (n ++ ' ' :: (v1 ++ [' ', '\\'])) = false)
    (htrv1 : trim (v1 ++ [' ']) = v1)
    (hline2 : trim ((f2 ++ [' ', '\\']).takeWhile (fun c => c != '#'))
      = f2 ++ [' ', '\\'])
    (hdm2 : directiveMatch? (f2 ++ [' ', '\\']) = Option.none)
    (htrf2 : trim (f2 ++ [' ']) = f2)
    (hline3 : trim (f3.takeWhile (fun c => c != '#')) = f3)
    (hdm3 : directiveMatch? f3 = Option.none)
    (hne3 : f3 ≠ [])
    (hend3 : endsWithChar f3 '\\' = false)
    (htrj : trim (((v1 ++ [' ']) ++ (f2 ++ [' '])) ++ f3)
      = ((v1 ++ [' ']) ++ (f2 ++ [' '])) ++ f3)
    (hnl1 : ('\n' : Char) ∉ n ++ ' ' :: (v1 ++ [' ', '\\']))
    (hnl2 : ('\n' : Char) ∉ f2 ++ [' ', '\\'])
    (hnl3 : ('\n' : Char) ∉ f3)
    (hlt : ∀ c ∈ (n ++ ' ' :: (v1 ++ [' ', '\\'])) ++
      '\n' :: ((f2 ++ [' ', '\\']) ++ '\n' :: f3), c ≠ '<') :
    parseDirectives ((n ++ ' ' :: (v1 ++ [' ', '\\'])) ++
        '\n' :: ((f2 ++ [' ', '\\']) ++ '\n' :: f3)) =
      [(toLowerStr n, [((v1 ++ [' ']) ++ (f2 ++ [' '])) ++ f3])] := by
  have hnested : nestedInteriors ((n ++ ' ' :: (v1 ++ [' ', '\\'])) ++
      '\n' :: ((f2 ++ [' ', '\\']) ++ '\n' :: f3)) = [] :=
    nestedInteriors_none _
      (firstSplit_none_no_head matchNestedSpan rfl matchNestedSpan_ne_head _ hlt)
  rw [parseDirectives_no_nested _ hnested]
  rw [splitOnChar_append '\n' _ _ hnl1, splitOnChar_append '\n' _ _ hnl2,
    splitOnChar_not_mem '\n' f3 hnl3]
  have hdl1 : (v1 ++ [' ', '\\']).dropLast = v1 ++ [' '] := by
    rw [show v1 ++ [' ', '\\'] = (v1 ++ [' ']) ++ ['\\'] from by simp,
      List.dropLast_concat]
  have hdl2 : (f2 ++ [' ', '\\']).dropLast = f2 ++ [' '] := by
    rw [show f2 ++ [' ', '\\'] = (f2 ++ [' ']) ++ ['\\'] from by simp,
      List.dropLast_concat]
  have hew1 : endsWithChar (v1 ++ [' ', '\\']) '\\' = true := by
    rw [show v1 ++ [' ', '\\'] = (v1 ++ [' ']) ++ ['\\'] from by simp]
    exact endsWithChar_concat _ _
  have hew2 : endsWithChar (f2 ++ [' ', '\\']) '\\' = true := by
    rw [show f2 ++ [' ', '\\'] = (f2 ++ [' ']) ++ ['\\'] from by simp]
    exact endsWithChar_concat _ _
  have s1 : scanStep ([], ⟨Option.none, []⟩) (n ++ ' ' :: (v1 ++ [' ', '\\'])) =
      ([], ⟨some n, v1 ++ [' ']⟩) := by
    unfold scanStep
    dsimp only
    rw [hline1]
    rw [if_neg (show ¬ (n ++ ' ' :: (v1 ++ [' ', '\\']) = []) from by simp)]
    rw [hdm1, hsp1]
    dsimp only
    rw [show (v1 ++ [' ', '\\']).isEmpty = false from by cases v1 <;> rfl, hew1]
    rw [hdl1, htrv1]
    rfl
  have s2 : scanStep ([], ⟨some n, v1 ++ [' ']⟩) (f2 ++ [' ', '\\']) =
      ([], ⟨some n, (v1 ++ [' ']) ++ (f2 ++ [' '])⟩) := by
    unfold scanStep
    dsimp only
    rw [hline2]
    rw [if_neg (show ¬ (f2 ++ [' ', '\\'] = []) from by simp)]
    rw [hdm2]
    dsimp only
    rw [hew2]
    rw [hdl2, htrf2]
    simp [List.append_assoc]
  have s3 : scanStep ([], ⟨some n, (v1 ++ [' ']) ++ (f2 ++ [' '])⟩) f3 =
      ([(toLowerStr n, [((v1 ++ [' ']) ++ (f2 ++ [' '])) ++ f3])],
        ⟨Option.none, []⟩) := by
    unfold scanStep
    dsimp only
    rw [hline3]
    rw [if_neg hne3]
    rw [hdm3]
    dsimp only
    rw [hend3]
    rw [htrj]
    rfl
  unfold scanLines
  rw [List.foldl_cons, s1, List.foldl_cons, s2, List.foldl_cons, s3,
    List.foldl_nil]

/-- C8 witness: the amended statement on concrete fragments whose continued
lines do not look like directives. -/
theorem c8_continuation_non_directive_witness :
    parseDirectives ((("ProxyPass".data) ++ ' ' :: (("abc".data) ++ [' ', '\\'])) ++
        '\n' :: ((("+def".data) ++ [' ', '\\']) ++ '\n' :: ("+ghi".data))) =
      [(toLowerStr ("ProxyPass".data),
        [(("abc".data ++ [' ']) ++ ("+def".data ++ [' '])) ++ "+ghi".data])] :=
  c8_continuation_non_directive ("ProxyPass".data) ("abc".data) ("+def".data)
    ("+ghi".data) (by decide) (by decide) (by decide) (by decide) (by decide)
    (by decide) (by decide) (by decide) (by decide) (by decide) (by decide)
    (by decide) (by decide) (by decide) (by decide) (by decide)

/-! ### C9: the block extractor on an unterminated block followed by a
well-formed block (`extractVirtualHostBlocks` regex loop) -/

/-- One `g`-flag attempt position: when the whole pattern fails at the
current index the engine retries one character to the right. -/
theorem firstSplit_cons_none {α : Type} (m : List Char → Option (α × List Char))
    (c : Char) (cs : List Char) (h : m (c :: cs) = Option.none) :
    firstSplit m (c :: cs) =
      (firstSplit m cs).map (fun q => (c :: q.1, q.2.1, q.2.2)) := by
  simp only [firstSplit, h]

/-- When the whole pattern matches at the current index the scan reports it
with an empty prefix. -/
theorem firstSplit_of_match {α : Type} (m : List Char → Option (α × List Char))
    (s : List Char) (a : α) (r : List Char) (h : m s = some (a, r))
    (hs : s ≠ []) : firstSplit m s = some ([], a, r) := by
  cases s with
  | nil => exact absurd rfl hs
  | cons c cs => simp only [firstSplit, h]

/-- The lazy close-tag search of the extraction regex skips over any text
free of `'<'`. -/
theorem firstSplit_close_skip (p s : List Char) :
    (∀ c ∈ p, c ≠ '<') →
    firstSplit matchVhostClose (p ++ s) =
      (firstSplit matchVhostClose s).map
        (fun q => (p ++ q.1, q.2.1, q.2.2)) := by
  induction p with
  | nil =>
    intro _
    cases hq : firstSplit matchVhostClose s <;> simp [hq]
  | cons c cs ih =>
    intro h
    rw [List.cons_append,
      firstSplit_cons_none _ c _
        (matchVhostClose_ne_head c _ (h c (List.mem_cons_self _ _))),
      ih (fun d hd => h d (List.mem_cons_of_mem _ hd))]
    cases hq : firstSplit matchVhostClose s <;> simp [hq]

/-- A `'<'` that opens a nested `VirtualHost` tag is not a closing tag (the
next character is not `/`), so the lazy close search steps past it. -/
theorem matchVhostClose_inner_open (t : List Char) :
    matchVhostClose ('<' :: ("VirtualHost *:80>".data ++ t)) = Option.none := rfl

/-- The whole-pattern open-tag matcher on a standard `<VirtualHost *:80>`
open tag at the head of the text: attributes ` *:80`, rest after the `>`. -/
theorem matchVhostOpen_std (t : List Char) :
    matchVhostOpen ("<VirtualHost *:80>".data ++ t) =
      some (("<VirtualHost *:80>".data, " *:80".data), t) := rfl

/-- Generator of an unterminated `VirtualHost` block: an open tag and a
`ServerName` line with no closing tag. -/
def uBlk (n : List Char) : List Char :=
  "<VirtualHost *:80>".data ++ ("\nServerName ".data ++ (n ++ "\n".data))

/-- Generator of a well-formed `VirtualHost` block with one `ServerName`
line. -/
def wBlk (m : List Char) : List Char :=
  "<VirtualHost *:80>".data ++
    ("\nServerName ".data ++ (m ++ ("\n".data ++ "</VirtualHost>".data)))

/-- C9: the spec's failure-mode sentence is wrong about isolation. A block
whose open tag has no matching close is indeed not yielded as a span of its
own, but it is not treated as if absent: the lazy close search of the
extraction regex runs past the next block's open tag and pairs the
unterminated open tag with that block's closing tag, so the extractor
yields one merged span that swallows the following well-formed block. In
isolation the well-formed block parses to its own span; preceded by the
unterminated block, that span is absent from the result. -/
theorem c9_unterminated_swallows_next (n m : List Char)
    (hn : ∀ c ∈ n, c ≠ '<') (hm : ∀ c ∈ m, c ≠ '<') :
    extractVHostSpans (uBlk n ++ wBlk m) =
      [⟨" *:80".data,
        "\nServerName ".data ++ n ++ "\n<VirtualHost *:80>\nServerName ".data ++
          m ++ "\n".data,
        uBlk n ++ wBlk m⟩] ∧
    extractVHostSpans (wBlk m) =
      [⟨" *:80".data, "\nServerName ".data ++ m ++ "\n".data, wBlk m⟩] ∧
    (⟨" *:80".data, "\nServerName ".data ++ m ++ "\n".data, wBlk m⟩ : VSpan) ∉
      extractVHostSpans (uBlk n ++ wBlk m) := by
  have hc0 : firstSplit matchVhostClose ("</VirtualHost>".data) =
      some ([], "</VirtualHost>".data, []) := by decide
  have hc1 : firstSplit matchVhostClose ("\n".data ++ "</VirtualHost>".data) =
      some ("\n".data, "</VirtualHost>".data, []) := by
    rw [firstSplit_close_skip _ _ (by decide), hc0]
    rfl
  have hc2 : firstSplit matchVhostClose
      (m ++ ("\n".data ++ "</VirtualHost>".data)) =
      some (m ++ "\n".data, "</VirtualHost>".data, []) := by
    rw [firstSplit_close_skip _ _ hm, hc1]
    rfl
  have hc3 : firstSplit matchVhostClose
      ("\nServerName ".data ++ (m ++ ("\n".data ++ "</VirtualHost>".data))) =
      some ("\nServerName ".data ++ (m ++ "\n".data), "</VirtualHost>".data, []) := by
    rw [firstSplit_close_skip _ _ (by decide), hc2]
    rfl
  have hc4 : firstSplit matchVhostClose
      ("VirtualHost *:80>".data ++ ("\nServerName ".data ++
        (m ++ ("\n".data ++ "</VirtualHost>".data)))) =
      some ("VirtualHost *:80>".data ++ ("\nServerName ".data ++ (m ++ "\n".data)),
        "</VirtualHost>".data, []) := by
    rw [firstSplit_close_skip _ _ (by decide), hc3]
    rfl
  have hc5 : firstSplit matchVhostClose
      ('<' :: ("VirtualHost *:80>".data ++ ("\nServerName ".data ++
        (m ++ ("\n".data ++ "</VirtualHost>".data))))) =
      some ('<' :: ("VirtualHost *:80>".data ++
          ("\nServerName ".data ++ (m ++ "\n".data))),
        "</VirtualHost>".data, []) := by
    rw [firstSplit_cons_none _ _ _ (matchVhostClose_inner_open _), hc4]
    rfl
  have hc6 : firstSplit matchVhostClose
      ("\n".data ++ ('<' :: ("VirtualHost *:80>".data ++ ("\nServerName ".data ++
        (m ++ ("\n".data ++ "</VirtualHost>".data)))))) =
      some ("\n".data ++ ('<' :: ("VirtualHost *:80>".data ++
          ("\nServerName ".data ++ (m ++ "\n".data)))),
        "</VirtualHost>".data, []) := by
    rw [firstSplit_close_skip _ _ (by decide), hc5]
    rfl
  have hc7 : firstSplit matchVhostClose
      (n ++ ("\n".data ++ ('<' :: ("VirtualHost *:80>".data ++
        ("\nServerName ".data ++ (m ++ ("\n".data ++ "</VirtualHost>".data))))))) =
      some (n ++ ("\n".data ++ ('<' :: ("VirtualHost *:80>".data ++
          ("\nServerName ".data ++ (m ++ "\n".data))))),
        "</VirtualHost>".data, []) := by
    rw [firstSplit_close_skip _ _ hn, hc6]
    rfl
  have hc8 : firstSplit matchVhostClose
      ("\nServerName ".data ++ (n ++ ("\n".data ++ ('<' ::
        ("VirtualHost *:80>".data ++ ("\nServerName ".data ++
          (m ++ ("\n".data ++ "</VirtualHost>".data)))))))) =
      some ("\nServerName ".data ++ (n ++ ("\n".data ++ ('<' ::
          ("VirtualHost *:80>".data ++ ("\nServerName ".data ++
            (m ++ "\n".data)))))),
        "</VirtualHost>".data, []) := by
    rw [firstSplit_close_skip _ _ (by decide), hc7]
    rfl
  have hspan1 : matchVhostSpan ("<VirtualHost *:80>".data ++
      ("\nServerName ".data ++ (n ++ ("\n".data ++ ('<' ::
        ("VirtualHost *:80>".data ++ ("\nServerName ".data ++
          (m ++ ("\n".data ++ "</VirtualHost>".data))))))))) =
      some (⟨" *:80".data,
        "\nServerName ".data ++ (n ++ ("\n".data ++ ('<' ::
          ("VirtualHost *:80>".data ++ ("\nServerName ".data ++
            (m ++ "\n".data)))))),
        "<VirtualHost *:80>".data ++
          ("\nServerName ".data ++ (n ++ ("\n".data ++ ('<' ::
            ("VirtualHost *:80>".data ++ ("\nServerName ".data ++
              (m ++ "\n".data))))))) ++ "</VirtualHost>".data⟩, []) := by
    unfold matchVhostSpan
    rw [matchVhostOpen_std]
    dsimp only
    rw [hc8]
  have hspan2 : matchVhostSpan ("<VirtualHost *:80>".data ++
      ("\nServerName ".data ++ (m ++ ("\n".data ++ "</VirtualHost>".data)))) =
      some (⟨" *:80".data,
        "\nServerName ".data ++ (m ++ "\n".data),
        "<VirtualHost *:80>".data ++
          ("\nServerName ".data ++ (m ++ "\n".data)) ++
          "</VirtualHost>".data⟩, []) := by
    unfold matchVhostSpan
    rw [matchVhostOpen_std]
    dsimp only
    rw [hc3]
  have e1 : ("<VirtualHost *:80>".data).length = 18 := by decide
  have hfs1 := firstSplit_of_match _ _ _ _ hspan1 (by simp)
  have hfs2 := firstSplit_of_match _ _ _ _ hspan2 (by simp)
  have hnil : extractVHostSpans ([] : List Char) = [] :=
    extractVHostSpans_none [] (by decide)
  have hext1 := extractVHostSpans_step _ _ _ _ hfs1
  have hext2 := extractVHostSpans_step _ _ _ _ hfs2
  rw [hnil] at hext1 hext2
  have hE1 : uBlk n ++ wBlk m = "<VirtualHost *:80>".data ++
      ("\nServerName ".data ++ (n ++ ("\n".data ++ ('<' ::
        ("VirtualHost *:80>".data ++ ("\nServerName ".data ++
          (m ++ ("\n".data ++ "</VirtualHost>".data)))))))) := by
    have hcons : ("<VirtualHost *:80>".data : List Char) =
        '<' :: "VirtualHost *:80>".data := by decide
    rw [uBlk, wBlk]
    nth_rewrite 2 [hcons]
    simp [List.append_assoc]
  have hE2 : wBlk m = "<VirtualHost *:80>".data ++
      ("\nServerName ".data ++ (m ++ ("\n".data ++ "</VirtualHost>".data))) := rfl
  have hmid : ("\n<VirtualHost *:80>\nServerName ".data : List Char) =
      "\n".data ++ ('<' :: ("VirtualHost *:80>".data ++ "\nServerName ".data)) := by
    decide
  refine ⟨?_, ?_, ?_⟩
  · rw [hE1, hext1, hmid]
    simp [List.append_assoc]
  · rw [hE2, hext2]
    simp [List.append_assoc]
  · rw [hE1, hext1]
    simp only [List.mem_singleton]
    intro hcontra
    have hraw := congrArg VSpan.raw hcontra
    have hlen := congrArg List.length hraw
    have e2 : ("\nServerName ".data : List Char).length = 12 := by decide
    have e3 : ("\n".data : List Char).length = 1 := by decide
    have e4 : ("</VirtualHost>".data : List Char).length = 14 := by decide
    have e5 : ("VirtualHost *:80>".data : List Char).length = 17 := by decide
    simp only [wBlk, List.length_append, List.length_cons, e1, e2, e3, e4,
      e5] at hlen
    omega

/-- C9 witness: the amended statement at concrete server names. -/
theorem c9_unterminated_swallows_next_witness :
    extractVHostSpans (uBlk ("u.example.com".data) ++ wBlk ("g.example.com".data)) =
      [⟨" *:80".data,
        "\nServerName ".data ++ "u.example.com".data ++
          "\n<VirtualHost *:80>\nServerName ".data ++ "g.example.com".data ++
          "\n".data,
        uBlk ("u.example.com".data) ++ wBlk ("g.example.com".data)⟩] ∧
    extractVHostSpans (wBlk ("g.example.com".data)) =
      [⟨" *:80".data, "\nServerName ".data ++ "g.example.com".data ++ "\n".data,
        wBlk ("g.example.com".data)⟩] ∧
    (⟨" *:80".data, "\nServerName ".data ++ "g.example.com".data ++ "\n".data,
        wBlk ("g.example.com".data)⟩ : VSpan) ∉
      extractVHostSpans (uBlk ("u.example.com".data) ++ wBlk ("g.example.com".data)) :=
  c9_unterminated_swallows_next ("u.example.com".data) ("g.example.com".data)
    (by decide) (by decide)

def c9U : List Char := "<VirtualHost *:80>\nServerName u.example.com\n".data

def c9W : List Char :=
  "<VirtualHost *:443>\nServerName g.example.com\n</VirtualHost>".data

def c9WSpan : VSpan :=
  ⟨" *:443".data, "\nServerName g.example.com\n".data, c9W⟩

def c9Merged : VSpan :=
  ⟨" *:80".data,
    "\nServerName u.example.com\n<VirtualHost *:443>\nServerName g.example.com\n".data,
    c9U ++ c9W⟩

/-- C9 counterexample: alone, the well-formed `*:443` block is extracted as
its own span, but preceded by an unterminated `*:80` block the extractor
returns a single merged span carrying the unterminated block's attributes,
and the well-formed block's own span is gone. -/
theorem c9_counterexample :
    extractVHostSpans c9W = [c9WSpan] ∧
    extractVHostSpans (c9U ++ c9W) = [c9Merged] ∧
    c9WSpan ∉ extractVHostSpans (c9U ++ c9W) := by
  have h1 : firstSplit matchVhostSpan c9W = some ([], c9WSpan, []) := by decide
  have h2 : firstSplit matchVhostSpan (c9U ++ c9W) =
      some ([], c9Merged, []) := by decide
  have h0 : extractVHostSpans ([] : List Char) = [] :=
    extractVHostSpans_none [] (by decide)
  refine ⟨?_, ?_, ?_⟩
  · rw [extractVHostSpans_step _ _ _ _ h1, h0]
  · rw [extractVHostSpans_step _ _ _ _ h2, h0]
  · rw [extractVHostSpans_step _ _ _ _ h2, h0]
    decide
